import Mathlib

/-!
# AutoDropshipper — shallow embedding and verification

This file embeds the core logic of the AutoDropshipper scraper pipeline in
Lean 4 and settles a list of claims about its natural-language specification.

Embedded components (translated from the Python source, module by module):
* `src/scrapers/ebay/ebay_parser.py` — price parsing and listing extraction;
* `src/scrapers/ebay/ebay_selectors.py` — the selector-fallback resolver with
  its per-process success cache;
* `src/scrapers/ebay/ebay_scraper.py` — the search/classification/retry loop;
* `src/core/models/product_comparison.py` — profitability scoring;
* `src/database/repositories/idealo_product_repository.py` — reconciliation
  of scraped products into the catalog, price history, staleness work-list;
* `src/scrapers/main.py` — the per-entity comparison phase of
  `save_to_database`.

Modelling conventions:
* Python `str` values that are *parsed* are embedded as `List Char`
  (Python strings are character sequences; Lean `String`'s UTF-8 byte
  positions are an implementation artifact).  Data-carrying strings stay
  `String`.
* `Decimal`/`float` prices become `ℚ`; arithmetic is exact.  The precision
  of Python `float`/`Decimal` contexts is a representation detail that none
  of the claims depend on.
* Timestamps are absolute instants in seconds (`Int`).  Converting two
  aware datetimes to the same timezone before subtracting does not change
  the instants, so the Berlin-timezone conversion is the identity here.
  `timedelta.days` is floored division by 86400 (`Int.fdiv`).
* Database rows live in an explicit `Db` state; SQL side effects become
  state-passing functions.  `NOW()` becomes an explicit `now` argument.
-/

section AutoDropshipper

-- Batteries marks the `Rat` field operations `@[irreducible]`; re-allow
-- unfolding so that concrete rational arithmetic evaluates under `decide`.
attribute [local semireducible] Rat.add Rat.mul Rat.inv Rat.sub

/-! ## Python string primitives (on `List Char`) -/

/-- Python `str.replace(pat, repl)`, fuelled so that it is structurally
recursive (the fuel is the string length, always sufficient): replace
non-overlapping occurrences left to right.  (Python's behaviour for an
empty pattern is not needed: every pattern in the source is non-empty;
we return the string unchanged.) -/
def pyReplaceFuel (pat repl : List Char) : Nat → List Char → List Char
  | 0, s => s
  | _ + 1, [] => []
  | fuel + 1, c :: cs =>
    if pat ≠ [] ∧ pat.isPrefixOf (c :: cs) then
      repl ++ pyReplaceFuel pat repl fuel ((c :: cs).drop pat.length)
    else
      c :: pyReplaceFuel pat repl fuel cs

/-- Python `str.replace(pat, repl)`. -/
def pyReplace (pat repl s : List Char) : List Char :=
  pyReplaceFuel pat repl s.length s

/-- Python `str.strip()` with no arguments: remove leading and trailing
whitespace. -/
def pyStrip (s : List Char) : List Char :=
  ((s.dropWhile Char.isWhitespace).reverse.dropWhile Char.isWhitespace).reverse

/-- Python `pat in s` substring containment. -/
def pyContains (pat : List Char) : List Char → Bool
  | [] => pat.isEmpty
  | c :: cs => pat.isPrefixOf (c :: cs) || pyContains pat cs

/-- Python `str.split(sep)` for a non-empty separator, fuelled so that it
is structurally recursive (the fuel is the string length, always
sufficient). -/
def pySplitFuel (sep : List Char) : Nat → List Char → List (List Char)
  | 0, s => [s]
  | _ + 1, [] => [[]]
  | fuel + 1, c :: cs =>
    if sep ≠ [] ∧ sep.isPrefixOf (c :: cs) then
      [] :: pySplitFuel sep fuel ((c :: cs).drop sep.length)
    else
      match pySplitFuel sep fuel cs with
      | [] => [[c]]
      | p :: ps => (c :: p) :: ps

/-- Python `str.split(sep)`. -/
def pySplit (sep s : List Char) : List (List Char) :=
  pySplitFuel sep s.length s

/-- Python `str.split()` with no arguments: split on whitespace runs,
dropping empty pieces. -/
def pyWords (s : List Char) : List (List Char) :=
  (List.splitOnP Char.isWhitespace s).filter (· ≠ [])

/-- Numeric value of a run of decimal digits. -/
def digitsToNat (l : List Char) : Nat :=
  l.foldl (fun a c => 10 * a + (c.toNat - 48)) 0

/-- Value of `intPart.fracPart` as a rational. -/
def decVal (intPart fracPart : List Char) : ℚ :=
  (digitsToNat intPart : ℚ) + (digitsToNat fracPart : ℚ) / 10 ^ fracPart.length

/-- Python `float(s)` on plain decimal strings: optional surrounding
whitespace, optional sign, digits with at most one `.`, at least one digit.
Exotic accepted forms (exponents, `inf`/`nan`, underscores) are not
modelled; no claim exercises them.  `none` models the `ValueError`. -/
def pyFloat? (s : List Char) : Option ℚ :=
  let t := pyStrip s
  let signed : ℚ × List Char :=
    match t with
    | '-' :: r => (-1, r)
    | '+' :: r => (1, r)
    | _ => (1, t)
  match pySplit ['.'] signed.2 with
  | [a] =>
    if a ≠ [] ∧ a.all Char.isDigit then some (signed.1 * digitsToNat a) else none
  | [a, b] =>
    if (a ≠ [] ∨ b ≠ []) ∧ a.all Char.isDigit ∧ b.all Char.isDigit then
      some (signed.1 * decVal a b)
    else none
  | _ => none

/-! ## `EbayParser.parse_price` (ebay_parser.py, lines 26-66) -/

/-- The cleaning stage of `parse_price`: strip currency tokens, take the
first word of a range, and resolve the `,`/`.` separators. -/
def cleanPrice (price_text : List Char) : List Char :=
  let cleaned :=
    pyStrip (pyReplace ['€'] []
      (pyReplace ['£'] []
        (pyReplace ['$'] []
          (pyReplace ['E', 'U', 'R'] [] price_text))))
  let cleaned :=
    if pyContains [' ', 't', 'o', ' '] cleaned ∨ pyContains [' ', 'b', 'i', 's', ' '] cleaned then
      (pyWords cleaned).headD []
    else cleaned
  if pyContains [','] cleaned ∧ pyContains ['.'] cleaned then
    -- both present - assume german format (1.234,56)
    pyReplace [','] ['.'] (pyReplace ['.'] [] cleaned)
  else if pyContains [','] cleaned ∧ cleaned.count ',' = 1 then
    -- only comma - could be german decimal
    let parts := pySplit [','] cleaned
    if parts.length = 2 ∧ (parts.getD 1 []).length ≤ 2 then
      -- likely german decimal format
      pyReplace [','] ['.'] cleaned
    else
      -- likely thousands separator
      pyReplace [','] [] cleaned
  else
    -- just remove any commas (thousands separator)
    pyReplace [','] [] cleaned

/-- `EbayParser.parse_price`: returns the parsed value, or `0.0` when the
`float` conversion raises (`except (ValueError, AttributeError): return 0.0`). -/
def parse_price (price_text : List Char) : ℚ :=
  (pyFloat? (cleanPrice price_text)).getD 0

example : parse_price "EUR 29,99".toList = 2999 / 100 := by decide
example : parse_price "1.234,56".toList = 123456 / 100 := by decide
example : parse_price "1,234".toList = 1234 := by decide
example : parse_price "1,5".toList = 3 / 2 := by decide
example : parse_price "abc".toList = 0 := by decide
example : parse_price "€ 10 bis 20".toList = 10 := by decide

/-! ## DOM interface and selector resolver (ebay_selectors.py) -/

/-- The slice of a BeautifulSoup `Tag` that the parser consumes: stripped
text (`get_text(strip=True)`), and the `href`/`src`/`data-src` attributes
(`none` models an absent attribute). -/
structure Element where
  text : String
  href : Option String := none
  src : Option String := none
  dataSrc : Option String := none
deriving DecidableEq

/-- `Tag.get_text(strip=True)`: the element text with surrounding
whitespace stripped. -/
def Element.getText (e : Element) : String :=
  ⟨pyStrip e.text.toList⟩

/-- A DOM snapshot as the parser sees it: `select_one` on a CSS selector
string, returning the first match or `none`. -/
def Snapshot : Type := String → Option Element

/-- Python truthiness of an optional string (`None` and `""` are falsy). -/
def pyTruthy : Option String → Bool
  | none => false
  | some s => s ≠ ""

/-- Python `a or b` on optional strings. -/
def pyOr (a b : Option String) : Option String :=
  if pyTruthy a then a else b

/-- The `SELECTORS` table of ebay_selectors.py (lines 19-83): ordered
candidate lists per field key, newest pattern first.  Unknown keys yield
`[]` (`SELECTORS.get(selector_key, [])`). -/
def SELECTORS : String → List String
  | "item_class" => ["s-card", "s-item"]
  | "title" => [".s-card__title span", "div.s-item__title > span",
                "h3.s-item__title", ".s-item__title"]
  | "subtitle" => [".s-card__subtitle", "div.s-item__subtitle", ".s-item__subtitle"]
  | "price" => [".s-card__price", "span.s-item__price", ".s-item__price"]
  | "url" => [".su-link", "a.s-item__link", ".s-item__link"]
  | "image" => [".s-card__image", "div.s-item__image img", ".s-item__image img",
                "img.s-item__image"]
  | "results_container" => ["ul.srp-results > li"]
  | "no_results" => ["div.srp-save-null-search__title"]
  | "divider_class" => ["srp-river-answer--REWRITE_START"]
  | "divider_text" => ["Ergebnisse für weniger Suchbegriffe",
                       "Results for fewer search terms"]
  | _ => []

/-- `SelectorManager` state: the success cache `_successful_selectors`
(field key → last winning selector).  The `_failed_combinations` memo only
skips re-querying selectors already observed to fail on the same snapshot
object; with deterministic snapshots skipping and re-failing coincide, so
it is elided. -/
structure SelectorManager where
  successful : List (String × String)
deriving DecidableEq

/-- Association-list lookup (Python `dict.get`). -/
def assocFind (key : String) : List (String × String) → Option String
  | [] => none
  | kv :: rest => if kv.1 = key then some kv.2 else assocFind key rest

/-- Association-list removal (Python `del d[key]`). -/
def assocErase (key : String) : List (String × String) → List (String × String)
  | [] => []
  | kv :: rest =>
    if kv.1 = key then assocErase key rest else kv :: assocErase key rest

/-- Cache lookup (`selector_key in self._successful_selectors`). -/
def getCache (m : SelectorManager) (key : String) : Option String :=
  assocFind key m.successful

/-- Cache update (`self._successful_selectors[selector_key] = selector`). -/
def setCache (m : SelectorManager) (key sel : String) : SelectorManager :=
  ⟨(key, sel) :: assocErase key m.successful⟩

/-- Cache removal (`del self._successful_selectors[selector_key]`). -/
def delCache (m : SelectorManager) (key : String) : SelectorManager :=
  ⟨assocErase key m.successful⟩

/-- `SelectorManager.__init__`: empty cache.  Runs once, at module import,
for the module-global `selector_manager` instance. -/
def selectorManagerInit : SelectorManager := ⟨[]⟩

/-- `SelectorManager.clear_cache`. -/
def clear_cache (_ : SelectorManager) : SelectorManager := ⟨[]⟩

/-- The candidate-list scan of `try_selectors` (ebay_selectors.py, lines
134-163): try each selector in order, cache and return the first match. -/
def tryList (m : SelectorManager) (soup : Snapshot) (key : String) :
    List String → Option Element × SelectorManager
  | [] => (none, m)
  | sel :: rest =>
    match soup sel with
    | some r => (some r, setCache m key sel)
    | none => tryList m soup key rest

/-- `SelectorManager.try_selectors` (ebay_selectors.py, lines 98-179): a
cached winning selector is tried first; on a cache miss or cached-selector
failure the full candidate list is scanned in order.  The `required` flag
only controls logging and is dropped. -/
def try_selectors (m : SelectorManager) (soup : Snapshot) (key : String) :
    Option Element × SelectorManager :=
  match getCache m key with
  | some cached =>
    match soup cached with
    | some r => (some r, m)
    | none => tryList (delCache m key) soup key (SELECTORS key)
  | none => tryList m soup key (SELECTORS key)

/-- `EbayParser.__init__` (ebay_parser.py, lines 21-24) composed with
`EbayScraper.__init__`: a new harvest session takes the module-global
`selector_manager` as is — nothing clears the cache. -/
def ebay_parser_init (selector_manager : SelectorManager) : SelectorManager :=
  selector_manager

/-! ## `EbayListing` model validation (ebay_listing.py) -/

/-- The `EbayListing` pydantic model (data fields). -/
structure EbayListing where
  title : String
  subtitle : Option String := none
  price : ℚ
  source_url : String
  image_url : Option String := none
  is_best_match : Bool := false
deriving DecidableEq

/-- `pydantic.HttpUrl` accepts (among richer checks) only absolute
http/https URLs; the scheme check is the part the claims rely on. -/
def isHttpUrl (s : String) : Bool :=
  "http://".toList.isPrefixOf s.toList || "https://".toList.isPrefixOf s.toList

/-- Validating constructor for `EbayListing`: pydantic field constraints
`title: min_length=1, max_length=500`, `subtitle: max_length=500`,
`price: gt=0` plus the `validate_price` cap at 1,000,000, and the
`HttpUrl` checks.  `none` models the `ValidationError` raised on
construction.  (`decimal_places=2` concerns the `Decimal` representation
and is not expressible on exact rationals; no claim depends on it.) -/
def EbayListing.mk? (title : String) (subtitle : Option String) (price : ℚ)
    (source_url : String) (image_url : Option String) (is_best_match : Bool) :
    Option EbayListing :=
  if (decide (1 ≤ title.length) &&
      (decide (title.length ≤ 500) &&
       ((match subtitle with | some s => decide (s.length ≤ 500) | none => true) &&
        (decide (0 < price) &&
         (decide (price ≤ 1000000) &&
          (isHttpUrl source_url &&
           (match image_url with | some u => isHttpUrl u | none => true))))))) = true
  then some ⟨title, subtitle, price, source_url, image_url, is_best_match⟩
  else none

/-- `EbayListing.get_total_price` (no shipping data extracted). -/
def EbayListing.get_total_price (l : EbayListing) : ℚ := l.price

/-! ## `EbayParser` extraction (ebay_parser.py) -/

/-- The dictionary built by `extract_listing_data`. -/
structure ListingData where
  title : String
  subtitle : Option String
  price : ℚ
  source_url : String
  image_url : Option String
deriving DecidableEq

/-- `EbayParser.extract_listing_data` (ebay_parser.py, lines 68-132):
title (required), subtitle (optional), price text parsed via
`parse_price`, URL (required, with truthy `href`), image URL (optional,
`image_tag.get('src') or image_tag.get('data-src')`).  An early `return
None` keeps the selector-cache mutations made so far, hence the threaded
manager in every exit. -/
def extract_listing_data (m : SelectorManager) (item_soup : Snapshot) :
    Option ListingData × SelectorManager :=
  match try_selectors m item_soup "title" with
  | (none, m) => (none, m)
  | (some title_tag, m) =>
    let title := title_tag.getText
    let (subtitle_tag, m) := try_selectors m item_soup "subtitle"
    let subtitle := subtitle_tag.map (fun t => t.getText)
    match try_selectors m item_soup "price" with
    | (none, m) => (none, m)
    | (some price_tag, m) =>
      let price_text := price_tag.getText
      let price := parse_price price_text.toList
      match try_selectors m item_soup "url" with
      | (none, m) => (none, m)
      | (some url_tag, m) =>
        if pyTruthy url_tag.href then
          let source_url := url_tag.href.getD ""
          let (image_tag, m) := try_selectors m item_soup "image"
          let image_url :=
            match image_tag with
            | some t => pyOr t.src t.dataSrc
            | none => none
          (some ⟨title, subtitle, price, source_url, image_url⟩, m)
        else (none, m)

/-- `EbayParser.parse_search_result_item` (ebay_parser.py, lines 221-257):
extract the listing data, then build the validated `EbayListing`; a
`ValidationError` is caught and turned into `None`. -/
def parse_search_result_item (m : SelectorManager) (item_soup : Snapshot)
    (is_best_match : Bool) : Option EbayListing × SelectorManager :=
  match extract_listing_data m item_soup with
  | (none, m) => (none, m)
  | (some d, m) =>
    (EbayListing.mk? d.title d.subtitle d.price d.source_url d.image_url
      is_best_match, m)

/-! ## `EbayScraper.search_products` (ebay_scraper.py) -/

/-- The configuration values the search loop reads. -/
structure EbayConfig where
  MAX_BESTMATCH_ITEMS : Nat
  MAX_LEASTMATCH_ITEMS : Nat
deriving DecidableEq

/-- Result of `_analyze_search_results` (ebay_scraper.py, lines 268-334):
the zero-results marker, the divider position (`none` models the `-1`
sentinel), and the count of product items. -/
structure PageAnalysis where
  hasNoBestMatches : Bool
  dividerIndex : Option Nat
  itemCount : Nat
deriving DecidableEq

/-- `best_match_count = divider_index if divider_index != -1 else item_count`
(ebay_scraper.py, line 124). -/
def bestMatchCount (a : PageAnalysis) : Nat :=
  match a.dividerIndex with
  | some i => i
  | none => a.itemCount

/-- `EbayScraper._parse_elements` (ebay_scraper.py, lines 547-576): parse a
list of nodes, keeping the successes. -/
def parse_elements (m : SelectorManager) (is_best_match : Bool) :
    List Snapshot → List EbayListing × SelectorManager
  | [] => ([], m)
  | e :: es =>
    match parse_search_result_item m e is_best_match with
    | (some l, m') =>
      let r := parse_elements m' is_best_match es
      (l :: r.1, r.2)
    | (none, m') => parse_elements m' is_best_match es

/-- `EbayScraper._process_no_best_matches` (ebay_scraper.py, lines 336-390):
retry with the minimum-price filter when not yet filtered; otherwise parse
up to `MAX_LEASTMATCH_ITEMS` items tagged as non-best matches.  Returns
`(should_retry, listings)`. -/
def process_no_best_matches (cfg : EbayConfig) (m : SelectorManager)
    (elements : List Snapshot) (is_filtered_by_min_price : Bool) :
    Bool × List EbayListing × SelectorManager :=
  if ¬is_filtered_by_min_price then
    (true, [], m)
  else
    let r := parse_elements m false (elements.take cfg.MAX_LEASTMATCH_ITEMS)
    (false, r.1, r.2)

/-- `EbayScraper._process_many_best_matches` (ebay_scraper.py, lines
392-452): retry with the minimum-price filter when not yet filtered;
otherwise parse up to `MAX_BESTMATCH_ITEMS` items tagged as best matches. -/
def process_many_best_matches (cfg : EbayConfig) (m : SelectorManager)
    (elements : List Snapshot) (is_filtered_by_min_price : Bool) :
    Bool × List EbayListing × SelectorManager :=
  if ¬is_filtered_by_min_price then
    (true, [], m)
  else
    let r := parse_elements m true (elements.take cfg.MAX_BESTMATCH_ITEMS)
    (false, r.1, r.2)

/-- The per-element loop of `_process_mixed_matches` (ebay_scraper.py,
lines 489-516): parse every element, tagging items before the divider (or
all items when there is no divider) as best matches. -/
def parse_tagged (m : SelectorManager) (divider : Option Nat) :
    List Snapshot → Nat → List EbayListing × SelectorManager
  | [], _ => ([], m)
  | e :: es, i =>
    let is_best_match :=
      match divider with
      | none => true
      | some d => i < d
    match parse_search_result_item m e is_best_match with
    | (some l, m') =>
      let r := parse_tagged m' divider es (i + 1)
      (l :: r.1, r.2)
    | (none, m') => parse_tagged m' divider es (i + 1)

/-- `EbayScraper._process_mixed_matches` (ebay_scraper.py, lines 454-545):
parse all elements, then keep the pre-divider listings plus up to
`MAX_LEASTMATCH_ITEMS` post-divider listings (slicing the *parsed* list at
the divider index, as the source does). -/
def process_mixed_matches (cfg : EbayConfig) (m : SelectorManager)
    (elements : List Snapshot) (divider_index : Option Nat) :
    List EbayListing × SelectorManager :=
  let r := parse_tagged m divider_index elements 0
  match divider_index with
  | some d => ((r.1.take d) ++ ((r.1.drop d).take cfg.MAX_LEASTMATCH_ITEMS), r.2)
  | none => (r.1, r.2)

/-- Outcome of one `search_products` run: the minimum-price-filter flag of
each issued search attempt, in order, and the returned listings. -/
structure SearchOutcome where
  issued : List Bool
  listings : List EbayListing
deriving DecidableEq

/-- The `for attempt in range(2)` loop of `EbayScraper.search_products`
(ebay_scraper.py, lines 85-205), fuelled by the remaining attempts.  Each
iteration issues the search with the current filter state (recorded in
`issued`), classifies the page, and either retries with the filter applied
or returns.  Falling out of the loop returns `[]` ("should not reach
here").  The transport-failure retry path (the `except` clause) re-runs an
attempt without touching the filter flag and is not modelled; the page
content per attempt is a function of the filter state. -/
def searchLoop (cfg : EbayConfig) (page : Bool → PageAnalysis × List Snapshot) :
    Nat → Bool → SelectorManager → List Bool → SearchOutcome × SelectorManager
  | 0, _, m, issued => (⟨issued, []⟩, m)
  | fuel + 1, is_filtered_by_min_price, m, issued =>
    let (analysis, elements) := page is_filtered_by_min_price
    let issued := issued ++ [is_filtered_by_min_price]
    if analysis.hasNoBestMatches then
      let r := process_no_best_matches cfg m elements is_filtered_by_min_price
      if r.1 then searchLoop cfg page fuel true r.2.2 issued
      else (⟨issued, r.2.1⟩, r.2.2)
    else if cfg.MAX_BESTMATCH_ITEMS ≤ bestMatchCount analysis then
      let r := process_many_best_matches cfg m elements is_filtered_by_min_price
      if r.1 then searchLoop cfg page fuel true r.2.2 issued
      else (⟨issued, r.2.1⟩, r.2.2)
    else
      let r := process_mixed_matches cfg m elements analysis.dividerIndex
      (⟨issued, r.1⟩, r.2)

/-- `EbayScraper.search_products`: two attempts, starting unfiltered. -/
def search_products (cfg : EbayConfig) (m : SelectorManager)
    (page : Bool → PageAnalysis × List Snapshot) : SearchOutcome × SelectorManager :=
  searchLoop cfg page 2 false m []

/-! ## `ProductComparison` (product_comparison.py) -/

/-- The `IdealoProduct` pydantic model (data fields; its validators force
`price > 0`, which stays a side condition here). -/
structure IdealoProduct where
  name : String
  price : ℚ
  discount : Option ℚ := none
  source_url : String
  image_url : Option String := none
  category : String := "Electronics"
  is_active : Bool := true
deriving DecidableEq

/-- The `ProductComparison` pydantic model with its field defaults
(product_comparison.py, lines 30-36). -/
structure ProductComparison where
  idealo_product : IdealoProduct
  ebay_listings : List EbayListing := []
  potential_profit : Option ℚ := none
  profit_percentage : Option ℚ := none
  is_profitable : Bool := false
  min_ebay_price : Option ℚ := none
deriving DecidableEq

/-- Python `min` over a non-empty list (iterative, keeping the smallest so
far).  The `[]` case is unreachable in every guarded call site (Python
would raise). -/
def pyMin : List ℚ → ℚ
  | [] => 0
  | x :: xs => xs.foldl min x

/-- `ProductComparison.calculate_profitability` (product_comparison.py,
lines 38-69), as a state transformer on the comparison record: empty
listing list sets only `is_profitable := False`; otherwise the minimum
eBay price, the potential profit, the informational percentage (only when
the Idealo price is positive) and the margin-only verdict are set. -/
def calculate_profitability (c : ProductComparison)
    (min_profit_margin : ℚ := 50) : ProductComparison :=
  if c.ebay_listings.isEmpty then
    { c with is_profitable := false }
  else
    let ebay_prices := c.ebay_listings.map EbayListing.get_total_price
    let min_ebay_price := pyMin ebay_prices
    let idealo_price := c.idealo_product.price
    let potential_profit := min_ebay_price - idealo_price
    let c := { c with
      min_ebay_price := some min_ebay_price,
      potential_profit := some potential_profit }
    let pct := some ((min_ebay_price - idealo_price) / idealo_price * 100)
    let c := if 0 < idealo_price then { c with profit_percentage := pct } else c
    { c with is_profitable := decide (min_profit_margin ≤ potential_profit) }

/-! ## Database state and `IdealoProductRepository`
(idealo_product_repository.py, ebay_listing_repository.py)

SQL statements become functions on an explicit `Db` state; `NOW()` is an
explicit `now : Int` argument (seconds).  The happy path is modelled:
`_execute_query` failures, commit and rollback are connection-level
concerns outside the claims under test. -/

/-- A `deal_board_product` row. -/
structure ProductRow where
  id : Nat
  name : String
  price : ℚ
  discount : Option ℚ
  source_url : String
  image_url : Option String
  is_active : Bool
  category : String
  last_ebay_check : Option Int
  potential_profit : Option ℚ
  profit_percentage : Option ℚ
  is_profitable : Bool
  min_ebay_price : Option ℚ
  created_at : Int
  updated_at : Int
deriving DecidableEq

/-- A `deal_board_pricelog` row. -/
structure PriceLogRow where
  product_id : Nat
  price : ℚ
  scraped_at : Int
deriving DecidableEq

/-- A `deal_board_ebaylisting` row (the columns written by
`EbayListingRepository.insert_listing`). -/
structure EbayListingRow where
  product_id : Nat
  title : String
  subtitle : Option String
  price : ℚ
  source_url : String
  image_url : Option String
  scraped_at : Int
deriving DecidableEq

/-- The database state: the three tables plus the id sequence backing
`RETURNING id` on inserts. -/
structure Db where
  products : List ProductRow
  price_logs : List PriceLogRow
  ebay_listings : List EbayListingRow
  next_id : Nat
deriving DecidableEq

/-- The product dictionary built in `save_to_database` (main.py, lines
174-184): every key is present; `discount` carries the (possibly `None`)
`IdealoProduct.discount`. -/
structure ProductData where
  name : String
  price : ℚ
  discount : Option ℚ
  source_url : String
  image_url : Option String
  category : String
deriving DecidableEq

/-- `deactivate_all_products`: `UPDATE deal_board_product SET is_active = FALSE`. -/
def deactivate_all_products (db : Db) : Db :=
  { db with products := db.products.map (fun r => { r with is_active := false }) }

/-- `find_by_source_url`: `SELECT id, price, last_ebay_check ... WHERE
source_url = %s`, first row or `None`. -/
def find_by_source_url (db : Db) (source_url : String) :
    Option (Nat × ℚ × Option Int) :=
  (db.products.find? (fun r => r.source_url = source_url)).map
    (fun r => (r.id, r.price, r.last_ebay_check))

/-- `update_product`: set price, discount (`None` defaults to 0),
reactivate, touch `updated_at`. -/
def update_product (db : Db) (product_id : Nat) (price : ℚ)
    (discount : Option ℚ) (now : Int) : Db :=
  let discount_value := discount.getD 0
  { db with products := db.products.map (fun r =>
      if r.id = product_id then
        { r with price := price, discount := some discount_value,
                 is_active := true, updated_at := now }
      else r) }

/-- `insert_product`: new active row with `NULL`/`FALSE` profitability
fields, `RETURNING id`.  The model's insert always succeeds; `discount`
stores `product_data.get("discount", 0.0)`, which is the dictionary's
(possibly `None`) value because `save_to_database` always populates the
key. -/
def insert_product (db : Db) (p : ProductData) (now : Int) : Db × Option Nat :=
  let row : ProductRow :=
    { id := db.next_id, name := p.name, price := p.price,
      discount := p.discount, source_url := p.source_url,
      image_url := p.image_url, is_active := true, category := p.category,
      last_ebay_check := none, potential_profit := none,
      profit_percentage := none, is_profitable := false,
      min_ebay_price := none, created_at := now, updated_at := now }
  ({ db with products := db.products ++ [row], next_id := db.next_id + 1 },
   some db.next_id)

/-- `add_price_log`: append one `deal_board_pricelog` row. -/
def add_price_log (db : Db) (product_id : Nat) (price : ℚ) (now : Int) : Db :=
  { db with price_logs := db.price_logs ++ [⟨product_id, price, now⟩] }

/-- `update_last_ebay_check`: `SET last_ebay_check = NOW()`. -/
def update_last_ebay_check (db : Db) (product_id : Nat) (now : Int) : Db :=
  { db with products := db.products.map (fun r =>
      if r.id = product_id then { r with last_ebay_check := some now } else r) }

/-- `update_product_profit`: set the four profitability columns and touch
`updated_at`. -/
def update_product_profit (db : Db) (product_id : Nat)
    (potential_profit : Option ℚ) (profit_percentage : Option ℚ)
    (is_profitable : Bool) (min_ebay_price : Option ℚ) (now : Int) : Db :=
  { db with products := db.products.map (fun r =>
      if r.id = product_id then
        { r with potential_profit := potential_profit,
                 profit_percentage := profit_percentage,
                 is_profitable := is_profitable,
                 min_ebay_price := min_ebay_price,
                 updated_at := now }
      else r) }

/-- A `needs_ebay_check` entry
(`{"product_id": ..., "name": ..., "type": ...}`). -/
structure CheckEntry where
  product_id : Nat
  name : String
  type : String
deriving DecidableEq

/-- Python truthiness of the `product_id` variable (`None` and `0` falsy). -/
def pyTruthyId : Option Nat → Bool
  | none => false
  | some i => i ≠ 0

/-- The loop body of `process_scraped_products`
(idealo_product_repository.py, lines 182-235) for one product: find by
source URL; update (tracking `never checked`/`stale` staleness) or insert
(always needing a check); then append the price-history row.
`days_since_check` is `timedelta.days`, i.e. the floored number of whole
days between the two instants (the Berlin-timezone conversion of both
operands leaves the instants unchanged). -/
def processOneProduct (threshold now : Int) (db : Db) (p : ProductData) :
    Db × Option CheckEntry :=
  match find_by_source_url db p.source_url with
  | some (product_id, _old_price, last_ebay_check) =>
    let db := update_product db product_id p.price p.discount now
    let entry : Option CheckEntry :=
      match last_ebay_check with
      | none => some ⟨product_id, p.name, "returning_never_checked"⟩
      | some t =>
        let days_since_check := Int.fdiv (now - t) 86400
        if days_since_check > threshold then
          some ⟨product_id, p.name, "returning_stale"⟩
        else none
    let db :=
      if pyTruthyId (some product_id) then add_price_log db product_id p.price now
      else db
    (db, entry)
  | none =>
    let r := insert_product db p now
    let db := r.1
    let product_id := r.2
    let entry : Option CheckEntry :=
      if pyTruthyId product_id then some ⟨product_id.getD 0, p.name, "new"⟩
      else none
    let db :=
      if pyTruthyId product_id then add_price_log db (product_id.getD 0) p.price now
      else db
    (db, entry)

/-- `IdealoProductRepository.process_scraped_products`
(idealo_product_repository.py, lines 160-250): empty batches return
immediately; otherwise deactivate everything, process each product in
order, and return the accumulated `needs_ebay_check` work-list. -/
def process_scraped_products (db : Db) (products_to_process : List ProductData)
    (ebay_check_threshold_days : Int) (now : Int) : Db × List CheckEntry :=
  if products_to_process.isEmpty then
    (db, [])
  else
    let db := deactivate_all_products db
    products_to_process.foldl
      (fun st p =>
        let r := processOneProduct ebay_check_threshold_days now st.1 p
        (r.1, st.2 ++ r.2.toList))
      (db, ([] : List CheckEntry))

/-- `EbayListingRepository.update_listings_for_product`
(ebay_listing_repository.py, lines 82-106): delete the product's old
listing rows, then insert the new ones. -/
def update_listings_for_product (db : Db) (product_id : Nat)
    (listings : List EbayListing) (now : Int) : Db :=
  { db with ebay_listings :=
      db.ebay_listings.filter (fun r => r.product_id ≠ product_id)
        ++ listings.map (fun l =>
            (⟨product_id, l.title, l.subtitle, l.price, l.source_url,
              l.image_url, now⟩ : EbayListingRow)) }

/-- The per-entity comparison phase of `save_to_database` (main.py, lines
229-284): with listings found, compute the `ProductComparison` (default
margin), replace the entity's comparison rows and store the profitability
snapshot; with no listings, only `update_last_ebay_check` runs.  The
Telegram notification is outbound-only and not modelled. -/
def runEbayCheckForProduct (db : Db) (product_id : Nat)
    (idealo_product : IdealoProduct) (ebay_listings : List EbayListing)
    (now : Int) : Db :=
  if ¬ebay_listings.isEmpty then
    let comparison := calculate_profitability
      { idealo_product := idealo_product, ebay_listings := ebay_listings }
    let db := update_listings_for_product db product_id ebay_listings now
    update_product_profit db product_id comparison.potential_profit
      comparison.profit_percentage comparison.is_profitable
      comparison.min_ebay_price now
  else
    update_last_ebay_check db product_id now

/-! ## Helper lemmas -/

lemma foldl_min_le_init (xs : List ℚ) (a : ℚ) : xs.foldl min a ≤ a := by
  induction xs generalizing a with
  | nil => simp
  | cons x xs ih =>
    calc (x :: xs).foldl min a = xs.foldl min (min a x) := by simp
    _ ≤ min a x := ih _
    _ ≤ a := min_le_left _ _

lemma foldl_min_le_of_mem (xs : List ℚ) (a x : ℚ) (hx : x ∈ xs) :
    xs.foldl min a ≤ x := by
  induction xs generalizing a with
  | nil => simp at hx
  | cons y ys ih =>
    rcases List.mem_cons.mp hx with h | h
    · subst h
      calc (x :: ys).foldl min a = ys.foldl min (min a x) := by simp
      _ ≤ min a x := foldl_min_le_init _ _
      _ ≤ x := min_le_right _ _
    · simpa using ih (min a y) h

lemma foldl_min_eq_or_mem (xs : List ℚ) (a : ℚ) :
    xs.foldl min a = a ∨ xs.foldl min a ∈ xs := by
  induction xs generalizing a with
  | nil => simp
  | cons x xs ih =>
    have h := ih (min a x)
    rcases h with h | h
    · rcases le_total a x with hax | hax
      · left
        simpa [min_eq_left hax] using h
      · right
        simp only [List.foldl_cons]
        rw [h, min_eq_right hax]
        exact List.mem_cons_self _ _
    · right
      simp only [List.foldl_cons]
      exact List.mem_cons_of_mem _ h

/-- `pyMin` of a non-empty list is a lower bound. -/
lemma pyMin_le_of_mem (xs : List ℚ) (x : ℚ) (hx : x ∈ xs) : pyMin xs ≤ x := by
  cases xs with
  | nil => simp at hx
  | cons y ys =>
    rcases List.mem_cons.mp hx with h | h
    · subst h
      exact foldl_min_le_init _ _
    · exact foldl_min_le_of_mem _ _ _ h

/-- `pyMin` of a non-empty list is attained. -/
lemma pyMin_mem (xs : List ℚ) (h : xs ≠ []) : pyMin xs ∈ xs := by
  cases xs with
  | nil => exact absurd rfl h
  | cons y ys =>
    rcases foldl_min_eq_or_mem ys y with h' | h'
    · rw [pyMin, h']
      exact List.mem_cons_self _ _
    · exact List.mem_cons_of_mem _ h'

/-! ## C1 — profitability postcondition -/

/-- C1: for every reference price and every list of comparison listings,
`ProductComparison.calculate_profitability` satisfies the §4.5
postcondition: on an empty listing list the profitability fields stay null
and `is_profitable` is false; on a non-empty list `min_ebay_price` is the
minimum listing price across both relevance tiers, `potential_profit` is
that minimum minus the reference price, `profit_percentage` is
`potential_profit / referencePrice * 100` (null when the reference price
is not positive), and `is_profitable` holds exactly when the potential
profit reaches the absolute margin threshold — the percentage never gates
the verdict. -/
theorem C1_calculate_profitability_postcondition
    (p : IdealoProduct) (ls : List EbayListing) (margin : ℚ) :
    (ls = [] →
      (calculate_profitability { idealo_product := p, ebay_listings := ls }
          margin).min_ebay_price = none ∧
      (calculate_profitability { idealo_product := p, ebay_listings := ls }
          margin).potential_profit = none ∧
      (calculate_profitability { idealo_product := p, ebay_listings := ls }
          margin).profit_percentage = none ∧
      (calculate_profitability { idealo_product := p, ebay_listings := ls }
          margin).is_profitable = false) ∧
    (ls ≠ [] → ∃ M,
      (calculate_profitability { idealo_product := p, ebay_listings := ls }
          margin).min_ebay_price = some M ∧
      (∀ l ∈ ls, M ≤ l.price) ∧
      (∃ l ∈ ls, l.price = M) ∧
      (calculate_profitability { idealo_product := p, ebay_listings := ls }
          margin).potential_profit = some (M - p.price) ∧
      (0 < p.price →
        (calculate_profitability { idealo_product := p, ebay_listings := ls }
            margin).profit_percentage = some ((M - p.price) / p.price * 100)) ∧
      (¬0 < p.price →
        (calculate_profitability { idealo_product := p, ebay_listings := ls }
            margin).profit_percentage = none) ∧
      ((calculate_profitability { idealo_product := p, ebay_listings := ls }
          margin).is_profitable = true ↔ margin ≤ M - p.price)) := by
  cases ls with
  | nil =>
    exact ⟨fun _ => ⟨rfl, rfl, rfl, rfl⟩, fun h => absurd rfl h⟩
  | cons l ls' =>
    refine ⟨fun h => absurd h (List.cons_ne_nil l ls'), fun _ => ?_⟩
    have hc : calculate_profitability
        { idealo_product := p, ebay_listings := l :: ls' } margin =
        { idealo_product := p, ebay_listings := l :: ls',
          potential_profit :=
            some (pyMin ((l :: ls').map EbayListing.get_total_price) - p.price),
          profit_percentage :=
            if 0 < p.price then
              some ((pyMin ((l :: ls').map EbayListing.get_total_price) - p.price)
                / p.price * 100)
            else none,
          is_profitable :=
            decide (margin ≤
              pyMin ((l :: ls').map EbayListing.get_total_price) - p.price),
          min_ebay_price :=
            some (pyMin ((l :: ls').map EbayListing.get_total_price)) } := by
      simp only [calculate_profitability, List.isEmpty_cons, Bool.false_eq_true,
        if_false]
      split <;> rfl
    refine ⟨pyMin ((l :: ls').map EbayListing.get_total_price), ?_, ?_, ?_, ?_,
      ?_, ?_, ?_⟩
    · rw [hc]
    · intro l' hl'
      exact pyMin_le_of_mem _ _ (List.mem_map_of_mem EbayListing.get_total_price hl')
    · have hm := pyMin_mem ((l :: ls').map EbayListing.get_total_price) (by simp)
      obtain ⟨a, ha, haM⟩ := List.mem_map.mp hm
      exact ⟨a, ha, haM⟩
    · rw [hc]
    · intro hp
      rw [hc]
      simp only [if_pos hp]
    · intro hp
      rw [hc]
      simp only [if_neg hp]
    · rw [hc]
      simp only [decide_eq_true_eq]

/-- Fixtures for the C1 witness: the §8 scenario (reference price 100,
comparison listings priced 150, 130, 200, margin 20). -/
def idealoW : IdealoProduct :=
  { name := "W", price := 100, source_url := "https://idealo.de/p" }

def lsW : List EbayListing :=
  [{ title := "W1", price := 150, source_url := "https://ebay.com/1" },
   { title := "W2", price := 130, source_url := "https://ebay.com/2" },
   { title := "W3", price := 200, source_url := "https://ebay.com/3" }]

/-- Witness for C1 at the §8 scenario. -/
theorem C1_witness :
    lsW ≠ [] ∧ ∃ M,
      (calculate_profitability { idealo_product := idealoW, ebay_listings := lsW }
          20).min_ebay_price = some M ∧
      (∀ l ∈ lsW, M ≤ l.price) ∧
      (∃ l ∈ lsW, l.price = M) ∧
      (calculate_profitability { idealo_product := idealoW, ebay_listings := lsW }
          20).potential_profit = some (M - idealoW.price) ∧
      (0 < idealoW.price →
        (calculate_profitability { idealo_product := idealoW, ebay_listings := lsW }
            20).profit_percentage = some ((M - idealoW.price) / idealoW.price * 100)) ∧
      (¬0 < idealoW.price →
        (calculate_profitability { idealo_product := idealoW, ebay_listings := lsW }
            20).profit_percentage = none) ∧
      ((calculate_profitability { idealo_product := idealoW, ebay_listings := lsW }
          20).is_profitable = true ↔ 20 ≤ M - idealoW.price) :=
  ⟨by decide,
   (C1_calculate_profitability_postcondition idealoW lsW 20).2 (by decide)⟩

/-! ## C2 — the retry budget of the search state machine -/

/-- C2: for every query, starting unfiltered, `search_products` re-issues
the search with the minimum-price filter at most once: the issued-attempt
trace is `[false]` or `[false, true]` for every possible page behaviour
(so there is never a second filtered re-issue and the machine never
loops), and a zero-results classification on the unfiltered attempt forces
the trace `[false, true]` — exactly one filtered re-issue, after which
every classification outcome is final. -/
theorem C2_retry_budget (cfg : EbayConfig) (m : SelectorManager)
    (page : Bool → PageAnalysis × List Snapshot) :
    ((search_products cfg m page).1.issued = [false] ∨
      (search_products cfg m page).1.issued = [false, true]) ∧
    ((page false).1.hasNoBestMatches = true →
      (search_products cfg m page).1.issued = [false, true]) := by
  rcases hpf : page false with ⟨a1, e1⟩
  rcases hpt : page true with ⟨a2, e2⟩
  have hfiltered : ∀ (m' : SelectorManager) (issued₀ : List Bool),
      (searchLoop cfg page 1 true m' issued₀).1.issued = issued₀ ++ [true] := by
    intro m' issued₀
    simp only [searchLoop, hpt]
    by_cases h2 : a2.hasNoBestMatches = true
    · simp [h2, process_no_best_matches]
    · by_cases h3 : cfg.MAX_BESTMATCH_ITEMS ≤ bestMatchCount a2
      · simp [h2, h3, process_many_best_matches]
      · simp [h2, h3]
  have hmain : (search_products cfg m page).1.issued = [false] ∨
      (search_products cfg m page).1.issued = [false, true] := by
    simp only [search_products, searchLoop, hpf]
    by_cases h1 : a1.hasNoBestMatches = true
    · right
      simpa [h1, process_no_best_matches] using hfiltered m [false]
    · by_cases h4 : cfg.MAX_BESTMATCH_ITEMS ≤ bestMatchCount a1
      · right
        simpa [h1, h4, process_many_best_matches] using hfiltered m [false]
      · left
        simp [h1, h4]
  refine ⟨hmain, fun hz => ?_⟩
  have hz1 : a1.hasNoBestMatches = true := hz
  simp only [search_products, searchLoop, hpf]
  simpa [hz1, process_no_best_matches] using hfiltered m [false]

/-- A page behaviour showing the zero-results marker on every attempt. -/
def pageZeroResults : Bool → PageAnalysis × List Snapshot :=
  fun _ => (⟨true, none, 0⟩, [])

/-- Witness for C2: a zero-results page in the unfiltered state is
re-issued exactly once, with the filter applied. -/
theorem C2_witness :
    (pageZeroResults false).1.hasNoBestMatches = true ∧
    (search_products ⟨5, 3⟩ selectorManagerInit pageZeroResults).1.issued =
      [false, true] :=
  ⟨rfl, (C2_retry_budget ⟨5, 3⟩ selectorManagerInit pageZeroResults).2 rfl⟩

/-! ## C4 — `lastComparisonCheck` after the comparison phase -/

/-- A catalog row that has never been eBay-checked. -/
def prodRowC4 : ProductRow :=
  { id := 1, name := "P", price := 100, discount := some 0,
    source_url := "https://idealo.de/p", image_url := none, is_active := true,
    category := "Unknown", last_ebay_check := none, potential_profit := none,
    profit_percentage := none, is_profitable := false, min_ebay_price := none,
    created_at := 0, updated_at := 0 }

def dbC4 : Db :=
  { products := [prodRowC4], price_logs := [], ebay_listings := [], next_id := 2 }

def listingC4 : EbayListing :=
  { title := "L", price := 130, source_url := "https://ebay.com/1" }

/-- C4 (code bug): the claim says the comparison phase updates
`last_ebay_check` regardless of whether listings were found, but the code
only calls `update_last_ebay_check` in the no-listings branch
(main.py, line 283): with a non-empty comparison result the timestamp is
left untouched (here: still `NULL`), while with an empty result it is set. -/
theorem C4_last_check_only_updated_without_listings :
    ((runEbayCheckForProduct dbC4 1 idealoW [listingC4] 777).products.map
      (fun r => r.last_ebay_check)) = [none] ∧
    ((runEbayCheckForProduct dbC4 1 idealoW [] 777).products.map
      (fun r => r.last_ebay_check)) = [some 777] := by
  decide

/-! ## Selector-resolver lemmas -/

lemma assocFind_erase_self (k : String) (l : List (String × String)) :
    assocFind k (assocErase k l) = none := by
  induction l with
  | nil => rfl
  | cons kv l ih =>
    by_cases hk : kv.1 = k
    · simpa [assocErase, hk] using ih
    · simpa [assocErase, assocFind, hk] using ih

lemma assocFind_erase_ne (k k' : String) (h : k' ≠ k)
    (l : List (String × String)) :
    assocFind k' (assocErase k l) = assocFind k' l := by
  induction l with
  | nil => rfl
  | cons kv l ih =>
    simp only [assocErase]
    by_cases hk : kv.1 = k
    · have hne : ¬(kv.1 = k') := fun hc => h (hc ▸ hk)
      rw [if_pos hk, ih]
      simp only [assocFind]
      rw [if_neg hne]
    · rw [if_neg hk]
      simp only [assocFind]
      by_cases hk' : kv.1 = k'
      · rw [if_pos hk', if_pos hk']
      · rw [if_neg hk', if_neg hk', ih]

lemma getCache_setCache_self (m : SelectorManager) (k sel : String) :
    getCache (setCache m k sel) k = some sel := by
  simp [getCache, setCache, assocFind]

lemma getCache_setCache_ne (m : SelectorManager) (k sel k' : String)
    (h : k' ≠ k) : getCache (setCache m k sel) k' = getCache m k' := by
  have hne : ¬((k, sel).1 = k') := fun hc => h (hc ▸ rfl)
  simp only [getCache, setCache, assocFind, hne, if_false]
  exact assocFind_erase_ne k k' h m.successful

lemma getCache_delCache_self (m : SelectorManager) (k : String) :
    getCache (delCache m k) k = none :=
  assocFind_erase_self k m.successful

lemma getCache_delCache_ne (m : SelectorManager) (k k' : String) (h : k' ≠ k) :
    getCache (delCache m k) k' = getCache m k' :=
  assocFind_erase_ne k k' h m.successful

/-- Cache wellformedness: every cached selector belongs to the candidate
list of its field key.  Every selector-manager state reachable from the
initial one satisfies this (the cache is only ever written by `tryList`
with members of `SELECTORS key`). -/
def SelectorManager.Wf (m : SelectorManager) : Prop :=
  ∀ k s, getCache m k = some s → s ∈ SELECTORS k

lemma Wf_init : selectorManagerInit.Wf := by
  intro k s h
  simp [getCache, selectorManagerInit, assocFind] at h

lemma Wf_setCache (m : SelectorManager) (k sel : String) (hm : m.Wf)
    (hs : sel ∈ SELECTORS k) : (setCache m k sel).Wf := by
  intro k' s h
  by_cases hk : k' = k
  · subst hk
    rw [getCache_setCache_self] at h
    exact (Option.some_inj.mp h) ▸ hs
  · rw [getCache_setCache_ne _ _ _ _ hk] at h
    exact hm k' s h

lemma Wf_delCache (m : SelectorManager) (k : String) (hm : m.Wf) :
    (delCache m k).Wf := by
  intro k' s h
  by_cases hk : k' = k
  · subst hk
    rw [getCache_delCache_self] at h
    cases h
  · rw [getCache_delCache_ne _ _ _ hk] at h
    exact hm k' s h

lemma Wf_tryList (m : SelectorManager) (soup : Snapshot) (key : String)
    (l : List String) (hm : m.Wf) (hl : ∀ s ∈ l, s ∈ SELECTORS key) :
    (tryList m soup key l).2.Wf := by
  induction l with
  | nil => exact hm
  | cons s rest ih =>
    simp only [tryList]
    cases soup s with
    | some r => exact Wf_setCache m key s hm (hl s (List.mem_cons_self _ _))
    | none => exact ih (fun x hx => hl x (List.mem_cons_of_mem _ hx))

lemma try_selectors_cache_hit (m : SelectorManager) (soup : Snapshot)
    (key cached : String) (r : Element) (hg : getCache m key = some cached)
    (hs : soup cached = some r) : try_selectors m soup key = (some r, m) := by
  simp [try_selectors, hg, hs]

lemma try_selectors_cache_stale (m : SelectorManager) (soup : Snapshot)
    (key cached : String) (hg : getCache m key = some cached)
    (hs : soup cached = none) :
    try_selectors m soup key = tryList (delCache m key) soup key (SELECTORS key) := by
  simp [try_selectors, hg, hs]

lemma try_selectors_cache_miss (m : SelectorManager) (soup : Snapshot)
    (key : String) (hg : getCache m key = none) :
    try_selectors m soup key = tryList m soup key (SELECTORS key) := by
  simp [try_selectors, hg]

lemma Wf_try_selectors (m : SelectorManager) (soup : Snapshot) (key : String)
    (hm : m.Wf) : (try_selectors m soup key).2.Wf := by
  cases hg : getCache m key with
  | some cached =>
    cases hs : soup cached with
    | some r =>
      rw [try_selectors_cache_hit m soup key cached r hg hs]
      exact hm
    | none =>
      rw [try_selectors_cache_stale m soup key cached hg hs]
      exact Wf_tryList _ soup key _ (Wf_delCache m key hm) (fun x hx => hx)
  | none =>
    rw [try_selectors_cache_miss m soup key hg]
    exact Wf_tryList m soup key _ hm (fun x hx => hx)

lemma tryList_allmiss (m : SelectorManager) (soup : Snapshot) (key : String)
    (l : List String) (h : ∀ s ∈ l, soup s = none) :
    tryList m soup key l = (none, m) := by
  induction l with
  | nil => rfl
  | cons s rest ih =>
    simp only [tryList, h s (List.mem_cons_self _ _)]
    exact ih (fun x hx => h x (List.mem_cons_of_mem _ hx))

lemma tryList_unique (m : SelectorManager) (soup : Snapshot) (key : String)
    (l : List String) (s₀ : String) (e : Element) (h₀ : s₀ ∈ l)
    (he : soup s₀ = some e) (ho : ∀ s ∈ l, s ≠ s₀ → soup s = none) :
    (tryList m soup key l).1 = some e := by
  induction l with
  | nil => simp at h₀
  | cons s rest ih =>
    by_cases hs : s = s₀
    · subst hs
      simp [tryList, he]
    · have : soup s = none := ho s (List.mem_cons_self _ _) hs
      simp only [tryList, this]
      have h₀' : s₀ ∈ rest := by
        rcases List.mem_cons.mp h₀ with h | h
        · exact absurd h.symm hs
        · exact h
      exact ih h₀' (fun x hx hxne => ho x (List.mem_cons_of_mem _ hx) hxne)

/-- With a wellformed cache, a snapshot on which exactly one candidate of
`key`'s list matches resolves to that candidate's element, whatever was
cached. -/
lemma try_selectors_unique (m : SelectorManager) (soup : Snapshot)
    (key : String) (s₀ : String) (e : Element) (hm : m.Wf)
    (h₀ : s₀ ∈ SELECTORS key) (he : soup s₀ = some e)
    (ho : ∀ s ∈ SELECTORS key, s ≠ s₀ → soup s = none) :
    (try_selectors m soup key).1 = some e := by
  cases hg : getCache m key with
  | some cached =>
    by_cases hc : cached = s₀
    · subst hc
      rw [try_selectors_cache_hit m soup key cached e hg he]
    · have hnone : soup cached = none := ho cached (hm key cached hg) hc
      rw [try_selectors_cache_stale m soup key cached hg hnone]
      exact tryList_unique _ soup key _ s₀ e h₀ he ho
  | none =>
    rw [try_selectors_cache_miss m soup key hg]
    exact tryList_unique m soup key _ s₀ e h₀ he ho

/-- With a wellformed cache, a snapshot on which no candidate of `key`'s
list matches resolves to `none`. -/
lemma try_selectors_allmiss (m : SelectorManager) (soup : Snapshot)
    (key : String) (hm : m.Wf) (h : ∀ s ∈ SELECTORS key, soup s = none) :
    (try_selectors m soup key).1 = none := by
  cases hg : getCache m key with
  | some cached =>
    have hnone : soup cached = none := h cached (hm key cached hg)
    rw [try_selectors_cache_stale m soup key cached hg hnone,
      tryList_allmiss _ soup key _ h]
  | none =>
    rw [try_selectors_cache_miss m soup key hg, tryList_allmiss m soup key _ h]

/-! ## Shared DOM fixtures -/

/-- A listing node exposing only the newest-structure selectors: the four
required/optional fields are mapped to their primary (first) candidate
selector; every other selector misses. -/
def mkItem (title_e price_e url_e : Element) (image_e subtitle_e : Option Element) :
    Snapshot := fun sel =>
  if sel = ".s-card__title span" then some title_e
  else if sel = ".s-card__subtitle" then subtitle_e
  else if sel = ".s-card__price" then some price_e
  else if sel = ".su-link" then some url_e
  else if sel = ".s-card__image" then image_e
  else none

def titleE : Element := { text := "Widget" }

def priceE : Element := { text := "EUR 29,99" }

def badPriceE : Element := { text := "N/A" }

def urlE : Element := { text := "", href := some "https://www.ebay.de/itm/1" }

def imgBoth : Element :=
  { text := "", src := some "https://img.example/a.jpg",
    dataSrc := some "https://img.example/b.jpg" }

/-! ## C7 — selector cache across harvest sessions -/

/-- Session-one page: only the old-structure price selector matches. -/
def pageSessionOne : Snapshot := fun sel =>
  if sel = "span.s-item__price" then some priceE else none

/-- Session-two page: the newest price selector matches a fresh element,
and the old one still matches the stale element. -/
def pageSessionTwo : Snapshot := fun sel =>
  if sel = ".s-card__price" then some titleE
  else if sel = "span.s-item__price" then some priceE
  else none

/-- C7 counterexample: the claim says the cache is invalidated at every
new session, so no previous-session winner is ever consulted.  In the
code the module-global `selector_manager` flows into each new session
unchanged (`EbayParser.__init__`), so the selector cached while resolving
in session one ("span.s-item__price") is consulted — and wins — in
session two, even though a higher-priority selector now matches a
different element; a fresh manager would return that other element. -/
theorem C7_counterexample :
    (try_selectors
        (ebay_parser_init (try_selectors selectorManagerInit pageSessionOne "price").2)
        pageSessionTwo "price").1 = some priceE ∧
    (try_selectors selectorManagerInit pageSessionTwo "price").1 = some titleE ∧
    priceE ≠ titleE := by
  decide

/-- C7 (amended): the success cache lives in the module-global
`SelectorManager` created once per process; starting a new harvest session
passes it through unchanged, so a winning selector cached in a previous
session is consulted first (and, if it still matches, returned) by a
later session's resolve; the only invalidation is an explicit
`clear_cache`, which resets the manager to its initial state and which no
production code path invokes. -/
theorem C7_cache_survives_sessions (m : SelectorManager) (key sel : String)
    (e : Element) (soup : Snapshot) (hcache : getCache m key = some sel)
    (hhit : soup sel = some e) :
    ebay_parser_init m = m ∧
    try_selectors (ebay_parser_init m) soup key = (some e, m) ∧
    clear_cache m = selectorManagerInit :=
  ⟨rfl, try_selectors_cache_hit m soup key sel e hcache hhit, rfl⟩

/-- Witness for C7: a manager carrying the session-one cache entry keeps
serving it in the next session. -/
theorem C7_witness :
    ebay_parser_init (⟨[("price", "span.s-item__price")]⟩ : SelectorManager) =
      ⟨[("price", "span.s-item__price")]⟩ ∧
    try_selectors (ebay_parser_init ⟨[("price", "span.s-item__price")]⟩)
      pageSessionTwo "price" = (some priceE, ⟨[("price", "span.s-item__price")]⟩) ∧
    clear_cache ⟨[("price", "span.s-item__price")]⟩ = selectorManagerInit :=
  C7_cache_survives_sessions ⟨[("price", "span.s-item__price")]⟩ "price"
    "span.s-item__price" priceE pageSessionTwo (by decide) (by decide)

/-! ## Resolution of `mkItem` snapshots -/

lemma mkItem_resolve_title (m : SelectorManager) (hm : m.Wf) (t p u : Element)
    (ie se : Option Element) :
    (try_selectors m (mkItem t p u ie se) "title").1 = some t := by
  refine try_selectors_unique m _ "title" ".s-card__title span" t hm
    (by decide) rfl ?_
  intro s hs hne
  have hs' : s ∈ [".s-card__title span", "div.s-item__title > span",
    "h3.s-item__title", ".s-item__title"] := hs
  simp only [List.mem_cons, List.not_mem_nil, or_false] at hs'
  rcases hs' with h | h | h | h
  · exact absurd h hne
  · subst h; rfl
  · subst h; rfl
  · subst h; rfl

lemma mkItem_resolve_subtitle_none (m : SelectorManager) (hm : m.Wf)
    (t p u : Element) (ie : Option Element) :
    (try_selectors m (mkItem t p u ie none) "subtitle").1 = none := by
  refine try_selectors_allmiss m _ "subtitle" hm ?_
  intro s hs
  have hs' : s ∈ [".s-card__subtitle", "div.s-item__subtitle",
    ".s-item__subtitle"] := hs
  simp only [List.mem_cons, List.not_mem_nil, or_false] at hs'
  rcases hs' with h | h | h
  · subst h; rfl
  · subst h; rfl
  · subst h; rfl

lemma mkItem_resolve_price (m : SelectorManager) (hm : m.Wf) (t p u : Element)
    (ie se : Option Element) :
    (try_selectors m (mkItem t p u ie se) "price").1 = some p := by
  refine try_selectors_unique m _ "price" ".s-card__price" p hm
    (by decide) rfl ?_
  intro s hs hne
  have hs' : s ∈ [".s-card__price", "span.s-item__price", ".s-item__price"] := hs
  simp only [List.mem_cons, List.not_mem_nil, or_false] at hs'
  rcases hs' with h | h | h
  · exact absurd h hne
  · subst h; rfl
  · subst h; rfl

lemma mkItem_resolve_url (m : SelectorManager) (hm : m.Wf) (t p u : Element)
    (ie se : Option Element) :
    (try_selectors m (mkItem t p u ie se) "url").1 = some u := by
  refine try_selectors_unique m _ "url" ".su-link" u hm (by decide) rfl ?_
  intro s hs hne
  have hs' : s ∈ [".su-link", "a.s-item__link", ".s-item__link"] := hs
  simp only [List.mem_cons, List.not_mem_nil, or_false] at hs'
  rcases hs' with h | h | h
  · exact absurd h hne
  · subst h; rfl
  · subst h; rfl

lemma mkItem_resolve_image (m : SelectorManager) (hm : m.Wf) (t p u img : Element)
    (se : Option Element) :
    (try_selectors m (mkItem t p u (some img) se) "image").1 = some img := by
  refine try_selectors_unique m _ "image" ".s-card__image" img hm
    (by decide) rfl ?_
  intro s hs hne
  have hs' : s ∈ [".s-card__image", "div.s-item__image img",
    ".s-item__image img", "img.s-item__image"] := hs
  simp only [List.mem_cons, List.not_mem_nil, or_false] at hs'
  rcases hs' with h | h | h | h
  · exact absurd h hne
  · subst h; rfl
  · subst h; rfl
  · subst h; rfl

/-! ## C9 — image-attribute preference -/

/-- C9 (amended): for every listing node whose matched image element
carries attributes, the extractor's returned image URL is
`src or data-src` in Python's truthiness sense — the *immediate `src`*
attribute is preferred, and the lazy-load `data-src` attribute is only a
fallback used when `src` is absent or empty (the opposite of the claimed
preference). -/
theorem C9_image_prefers_src (m : SelectorManager) (hm : m.Wf)
    (t p u img : Element) (hhref : pyTruthy u.href = true) :
    ∃ d m', extract_listing_data m (mkItem t p u (some img) none) = (some d, m') ∧
      d.image_url = pyOr img.src img.dataSrc ∧
      (pyTruthy img.src = true → d.image_url = img.src) ∧
      (pyTruthy img.src = false → d.image_url = img.dataSrc) := by
  rcases h1 : try_selectors m (mkItem t p u (some img) none) "title" with ⟨r1, m1⟩
  have hr1 := mkItem_resolve_title m hm t p u (some img) none
  rw [h1] at hr1
  have hw1 : m1.Wf := by
    have h := Wf_try_selectors m (mkItem t p u (some img) none) "title" hm
    rw [h1] at h; exact h
  rcases h2 : try_selectors m1 (mkItem t p u (some img) none) "subtitle" with ⟨r2, m2⟩
  have hr2 := mkItem_resolve_subtitle_none m1 hw1 t p u (some img)
  rw [h2] at hr2
  have hw2 : m2.Wf := by
    have h := Wf_try_selectors m1 (mkItem t p u (some img) none) "subtitle" hw1
    rw [h2] at h; exact h
  rcases h3 : try_selectors m2 (mkItem t p u (some img) none) "price" with ⟨r3, m3⟩
  have hr3 := mkItem_resolve_price m2 hw2 t p u (some img) none
  rw [h3] at hr3
  have hw3 : m3.Wf := by
    have h := Wf_try_selectors m2 (mkItem t p u (some img) none) "price" hw2
    rw [h3] at h; exact h
  rcases h4 : try_selectors m3 (mkItem t p u (some img) none) "url" with ⟨r4, m4⟩
  have hr4 := mkItem_resolve_url m3 hw3 t p u (some img) none
  rw [h4] at hr4
  rcases h5 : try_selectors m4 (mkItem t p u (some img) none) "image" with ⟨r5, m5⟩
  have hr5 := mkItem_resolve_image m4 (by
    have h := Wf_try_selectors m3 (mkItem t p u (some img) none) "url" hw3
    rw [h4] at h; exact h) t p u img none
  rw [h5] at hr5
  simp only at hr1 hr2 hr3 hr4 hr5
  subst hr1; subst hr2; subst hr3; subst hr4; subst hr5
  refine ⟨⟨t.getText, none, parse_price p.getText.toList, u.href.getD "",
    pyOr img.src img.dataSrc⟩, m5, ?_, rfl, ?_, ?_⟩
  · simp only [extract_listing_data, h1, h2, h3, h4, h5, hhref, if_true]
    rfl
  · intro h
    simp only [pyOr, h, if_true]
  · intro h
    simp only [pyOr, h, Bool.false_eq_true, if_false]

/-- The node used by the C9 counterexample and witness: its image element
carries both a populated `src` and a populated `data-src`. -/
def itemBothImg : Snapshot := mkItem titleE priceE urlE (some imgBoth) none

/-- C9 counterexample: on a node whose image element carries both a
lazy-load `data-src` and an immediate `src`, the extractor returns the
`src` value, not the lazy-load value the claim promises. -/
theorem C9_counterexample :
    imgBoth.src = some "https://img.example/a.jpg" ∧
    imgBoth.dataSrc = some "https://img.example/b.jpg" ∧
    ((extract_listing_data selectorManagerInit itemBothImg).1.map
      (fun d => d.image_url)) = some (some "https://img.example/a.jpg") ∧
    (some "https://img.example/a.jpg" : Option String) ≠
      some "https://img.example/b.jpg" := by
  decide

/-- Witness for C9 at the concrete two-attribute node. -/
theorem C9_witness :
    ∃ d m', extract_listing_data selectorManagerInit itemBothImg = (some d, m') ∧
      d.image_url = pyOr imgBoth.src imgBoth.dataSrc ∧
      (pyTruthy imgBoth.src = true → d.image_url = imgBoth.src) ∧
      (pyTruthy imgBoth.src = false → d.image_url = imgBoth.dataSrc) :=
  C9_image_prefers_src selectorManagerInit Wf_init titleE priceE urlE imgBoth
    (by decide)

/-! ## C10 — the validation invariant of returned listings -/

/-- C10: every `EbayListing` returned by `parse_search_result_item`
satisfies the model's validation invariant (price strictly positive and at
most 1,000,000; title between 1 and 500 characters), and on every node
whose extracted values violate these bounds the function returns `none`
(the validation failure is absorbed, never re-raised). -/
theorem C10_validation_invariant (m : SelectorManager) (item : Snapshot)
    (b : Bool) :
    (∀ l m', parse_search_result_item m item b = (some l, m') →
      0 < l.price ∧ l.price ≤ 1000000 ∧ 1 ≤ l.title.length ∧
        l.title.length ≤ 500) ∧
    (∀ d m', extract_listing_data m item = (some d, m') →
      ¬(0 < d.price ∧ d.price ≤ 1000000 ∧ 1 ≤ d.title.length ∧
          d.title.length ≤ 500) →
      (parse_search_result_item m item b).1 = none) := by
  constructor
  · intro l m' h
    rcases hE : extract_listing_data m item with ⟨od, m''⟩
    cases od with
    | none =>
      simp only [parse_search_result_item, hE, Prod.mk.injEq] at h
      exact Option.noConfusion h.1
    | some d =>
      simp only [parse_search_result_item, hE, Prod.mk.injEq] at h
      obtain ⟨h1, -⟩ := h
      simp only [EbayListing.mk?] at h1
      split at h1
      · rename_i hc
        simp only [Bool.and_eq_true, decide_eq_true_eq] at hc
        obtain rfl : l = ⟨d.title, d.subtitle, d.price, d.source_url,
            d.image_url, b⟩ := (Option.some_inj.mp h1).symm
        exact ⟨hc.2.2.2.1, hc.2.2.2.2.1, hc.1, hc.2.1⟩
      · cases h1
  · intro d m' hE hviol
    simp only [parse_search_result_item, hE]
    simp only [EbayListing.mk?]
    rw [if_neg (fun hc => by
      simp only [Bool.and_eq_true, decide_eq_true_eq] at hc
      exact hviol ⟨hc.2.2.2.1, hc.2.2.2.2.1, hc.1, hc.2.1⟩)]

/-- The well-formed node used by the C10 witness. -/
def itemGood : Snapshot := mkItem titleE priceE urlE none none

/-- The listing extracted from `itemGood`. -/
def listingGood : EbayListing :=
  { title := "Widget", price := 2999 / 100,
    source_url := "https://www.ebay.de/itm/1", is_best_match := true }

/-- Witness for C10 at the concrete well-formed node. -/
theorem C10_witness :
    0 < listingGood.price ∧ listingGood.price ≤ 1000000 ∧
    1 ≤ listingGood.title.length ∧ listingGood.title.length ≤ 500 :=
  (C10_validation_invariant selectorManagerInit itemGood true).1 listingGood
    ((parse_search_result_item selectorManagerInit itemGood true).2) (by decide)

/-! ## C6 — price-parse failures and dropped items -/

/-- The node used by the C6 counterexample and witness: its price element
text does not parse. -/
def itemBadPrice : Snapshot := mkItem titleE badPriceE urlE none none

/-- C6 counterexample: on a price text whose `float` conversion fails, the
extraction pipeline does *not* yield a nil price — `parse_price`
substitutes `0.0` and `extract_listing_data` returns a populated record
carrying that zero price (the drop only happens later, at model
validation). -/
theorem C6_counterexample :
    pyFloat? (cleanPrice "N/A".toList) = none ∧
    ((extract_listing_data selectorManagerInit itemBadPrice).1.map
      (fun d => d.price)) = some 0 := by
  decide

/-- C6 (amended): on a price text whose parse fails, `parse_price` returns
a `0.0` substitute (not nil) and the extracted record carries price 0; the
containing item is nevertheless dropped — `parse_search_result_item`
returns `none` for any extracted record with price 0, and no listing it
ever returns carries a zero price. -/
theorem C6_zero_price_dropped (m : SelectorManager) (item : Snapshot) (b : Bool) :
    (∀ d m', extract_listing_data m item = (some d, m') → d.price = 0 →
      (parse_search_result_item m item b).1 = none) ∧
    (∀ l m', parse_search_result_item m item b = (some l, m') → l.price ≠ 0) := by
  constructor
  · intro d m' hE hz
    simp only [parse_search_result_item, hE]
    simp only [EbayListing.mk?]
    rw [if_neg (fun hc => by
      simp only [Bool.and_eq_true, decide_eq_true_eq] at hc
      have h0 : (0 : ℚ) < 0 := hz ▸ hc.2.2.2.1
      exact absurd h0 (lt_irrefl 0))]
  · intro l m' h hz
    rcases hE : extract_listing_data m item with ⟨od, m''⟩
    cases od with
    | none =>
      simp only [parse_search_result_item, hE, Prod.mk.injEq] at h
      exact Option.noConfusion h.1
    | some d =>
      simp only [parse_search_result_item, hE, Prod.mk.injEq] at h
      obtain ⟨h1, -⟩ := h
      simp only [EbayListing.mk?] at h1
      split at h1
      · rename_i hc
        simp only [Bool.and_eq_true, decide_eq_true_eq] at hc
        obtain rfl : l = ⟨d.title, d.subtitle, d.price, d.source_url,
            d.image_url, b⟩ := (Option.some_inj.mp h1).symm
        have hz' : d.price = 0 := hz
        have h0 : (0 : ℚ) < 0 := hz' ▸ hc.2.2.2.1
        exact absurd h0 (lt_irrefl 0)
      · cases h1

/-- Witness for C6: the unparseable-price node is dropped. -/
theorem C6_witness :
    (parse_search_result_item selectorManagerInit itemBadPrice true).1 = none :=
  (C6_zero_price_dropped selectorManagerInit itemBadPrice true).1
    ⟨"Widget", none, 0, "https://www.ebay.de/itm/1", none⟩
    ((extract_listing_data selectorManagerInit itemBadPrice).2) (by decide)
    (by decide)

/-! ## String lemmas for the price-parsing claims -/

/-- The decimal digit characters. -/
def digitChars : List Char := ['0', '1', '2', '3', '4', '5', '6', '7', '8', '9']

/-- A run of decimal digits. -/
abbrev DigitStr (s : List Char) : Prop := ∀ c ∈ s, c ∈ digitChars

lemma digitChar_isDigit (c : Char) (h : c ∈ digitChars) : c.isDigit = true := by
  fin_cases h <;> decide

lemma digitChar_not_ws (c : Char) (h : c ∈ digitChars) :
    c.isWhitespace = false := by
  fin_cases h <;> decide

lemma digitChar_ne (c : Char) (h : c ∈ digitChars) (ch : Char)
    (hch : ch ∉ digitChars) : c ≠ ch :=
  fun he => hch (he ▸ h)

lemma pyReplaceFuel_head_notin (c : Char) (cs repl : List Char) :
    ∀ (fuel : Nat) (s : List Char), c ∉ s →
      pyReplaceFuel (c :: cs) repl fuel s = s := by
  intro fuel
  induction fuel with
  | zero => intro s _; rfl
  | succ n ih =>
    intro s h
    cases s with
    | nil => rfl
    | cons c' s' =>
      have hcc : ¬(c = c') := fun hc => h (hc ▸ List.mem_cons_self c' s')
      have hpre : (c :: cs).isPrefixOf (c' :: s') = false := by
        simp [List.isPrefixOf, hcc]
      simp only [pyReplaceFuel]
      rw [if_neg (fun hcond => absurd hcond.2 (by simp [hpre]))]
      rw [ih s' (fun hm => h (List.mem_cons_of_mem _ hm))]

/-- `replace` with a pattern whose head never occurs is the identity. -/
lemma pyReplace_head_notin (c : Char) (cs repl s : List Char) (h : c ∉ s) :
    pyReplace (c :: cs) repl s = s :=
  pyReplaceFuel_head_notin c cs repl s.length s h

lemma pyReplace_single_map (x y : Char) (s : List Char) :
    pyReplace [x] [y] s = s.map (fun c => if c = x then y else c) := by
  suffices h : ∀ (fuel : Nat) (s : List Char), s.length ≤ fuel →
      pyReplaceFuel [x] [y] fuel s = s.map (fun c => if c = x then y else c) by
    exact h s.length s le_rfl
  intro fuel
  induction fuel with
  | zero =>
    intro s hs
    rw [List.length_eq_zero.mp (Nat.le_zero.mp hs)]
    rfl
  | succ n ih =>
    intro s hs
    cases s with
    | nil => rfl
    | cons c s' =>
      by_cases hxc : x = c
      · subst hxc
        simp only [pyReplaceFuel]
        rw [if_pos ⟨by simp, by simp [List.isPrefixOf]⟩]
        have hdrop : List.drop [x].length (x :: s') = s' := rfl
        rw [hdrop, ih s' (by simpa using hs)]
        simp
      · have hpre : [x].isPrefixOf (c :: s') = false := by
          simp [List.isPrefixOf, hxc, Ne.symm hxc]
        simp only [pyReplaceFuel]
        rw [if_neg (fun hcond => absurd hcond.2 (by simp [hpre]))]
        rw [ih s' (by simpa using hs)]
        simp only [List.map_cons]
        rw [if_neg (fun hc => hxc hc.symm)]

lemma pyReplace_single_del (x : Char) (s : List Char) :
    pyReplace [x] [] s = s.filter (fun c => !(c == x)) := by
  suffices h : ∀ (fuel : Nat) (s : List Char), s.length ≤ fuel →
      pyReplaceFuel [x] [] fuel s = s.filter (fun c => !(c == x)) by
    exact h s.length s le_rfl
  intro fuel
  induction fuel with
  | zero =>
    intro s hs
    rw [List.length_eq_zero.mp (Nat.le_zero.mp hs)]
    rfl
  | succ n ih =>
    intro s hs
    cases s with
    | nil => rfl
    | cons c s' =>
      by_cases hxc : x = c
      · subst hxc
        simp only [pyReplaceFuel]
        rw [if_pos ⟨by simp, by simp [List.isPrefixOf]⟩]
        have hdrop : List.drop [x].length (x :: s') = s' := rfl
        rw [hdrop, ih s' (by simpa using hs)]
        simp [List.filter_cons]
      · have hpre : [x].isPrefixOf (c :: s') = false := by
          simp [List.isPrefixOf, hxc, Ne.symm hxc]
        simp only [pyReplaceFuel]
        rw [if_neg (fun hcond => absurd hcond.2 (by simp [hpre]))]
        rw [ih s' (by simpa using hs)]
        have hb : (!(c == x)) = true := by
          simp only [Bool.not_eq_true', beq_eq_false_iff_ne]
          exact fun hc => hxc hc.symm
        simp [List.filter_cons, hb]

lemma pyStrip_of_no_ws (s : List Char) (h : ∀ c ∈ s, c.isWhitespace = false) :
    pyStrip s = s := by
  have hdrop : ∀ (l : List Char), (∀ c ∈ l, c.isWhitespace = false) →
      l.dropWhile Char.isWhitespace = l := by
    intro l hl
    cases l with
    | nil => rfl
    | cons c l' => simp [List.dropWhile_cons, hl c (List.mem_cons_self c l')]
  rw [pyStrip, hdrop s h, hdrop s.reverse (fun c hc => h c (List.mem_reverse.mp hc)),
    List.reverse_reverse]

lemma pyContains_head_notin (c : Char) (cs : List Char) :
    ∀ (s : List Char), c ∉ s → pyContains (c :: cs) s = false := by
  intro s
  induction s with
  | nil => intro _; rfl
  | cons c' s' ih =>
    intro h
    have hcc : ¬(c = c') := fun hc => h (hc ▸ List.mem_cons_self c' s')
    simp only [pyContains]
    rw [ih (fun hm => h (List.mem_cons_of_mem _ hm))]
    simp [List.isPrefixOf, hcc]

lemma pyContains_single_of_mem (x : Char) (s : List Char) (h : x ∈ s) :
    pyContains [x] s = true := by
  induction s with
  | nil => simp at h
  | cons c s' ih =>
    simp only [pyContains]
    rcases List.mem_cons.mp h with hc | hc
    · subst hc
      simp [List.isPrefixOf]
    · rw [ih hc]
      simp

lemma map_noop (f : Char → Char) (l : List Char) (h : ∀ c ∈ l, f c = c) :
    l.map f = l := by
  induction l with
  | nil => rfl
  | cons c l' ih =>
    simp only [List.map_cons, h c (List.mem_cons_self c l')]
    rw [ih (fun x hx => h x (List.mem_cons_of_mem _ hx))]

lemma filter_noop (p : Char → Bool) (l : List Char) (h : ∀ c ∈ l, p c = true) :
    l.filter p = l := by
  induction l with
  | nil => rfl
  | cons c l' ih =>
    simp only [List.filter_cons, h c (List.mem_cons_self c l'), if_true]
    rw [ih (fun x hx => h x (List.mem_cons_of_mem _ hx))]

lemma pySplit_single_nosep (x : Char) (s : List Char) (h : x ∉ s) :
    pySplit [x] s = [s] := by
  induction s with
  | nil => rfl
  | cons c s' ih =>
    have hxc : ¬(x = c) := fun hc => h (hc ▸ List.mem_cons_self c s')
    have hpre : [x].isPrefixOf (c :: s') = false := by
      simp [List.isPrefixOf, hxc, Ne.symm hxc]
    show pySplitFuel [x] (c :: s').length (c :: s') = [c :: s']
    simp only [List.length_cons, pySplitFuel]
    rw [if_neg (fun hcond => absurd hcond.2 (by simp [hpre]))]
    have h2 : pySplitFuel [x] s'.length s' = [s'] :=
      ih (fun hm => h (List.mem_cons_of_mem _ hm))
    rw [h2]

lemma pySplit_append_sep (x : Char) (a b : List Char) (h : x ∉ a) :
    pySplit [x] (a ++ x :: b) = a :: pySplit [x] b := by
  induction a with
  | nil =>
    show pySplitFuel [x] (x :: b).length (x :: b) = [] :: pySplit [x] b
    simp only [List.length_cons, pySplitFuel]
    rw [if_pos ⟨by simp, by simp [List.isPrefixOf]⟩]
    rfl
  | cons a₀ a' ih =>
    have hxa : ¬(x = a₀) := fun hc => h (hc ▸ List.mem_cons_self a₀ a')
    have hpre : [x].isPrefixOf (a₀ :: (a' ++ x :: b)) = false := by
      simp [List.isPrefixOf, hxa, Ne.symm hxa]
    show pySplitFuel [x] (a₀ :: (a' ++ x :: b)).length (a₀ :: (a' ++ x :: b)) =
      (a₀ :: a') :: pySplit [x] b
    simp only [List.length_cons, pySplitFuel]
    rw [if_neg (fun hcond => absurd hcond.2 (by simp [hpre]))]
    have h2 : pySplitFuel [x] (a' ++ x :: b).length (a' ++ x :: b) =
        a' :: pySplit [x] b := ih (fun hm => h (List.mem_cons_of_mem _ hm))
    rw [h2]

lemma digitsToNat_go (b : List Char) : ∀ n : Nat,
    b.foldl (fun a c => 10 * a + (c.toNat - 48)) n =
      n * 10 ^ b.length + digitsToNat b := by
  induction b with
  | nil => intro n; simp [digitsToNat]
  | cons c b' ih =>
    intro n
    have hd : digitsToNat (c :: b') =
        (c.toNat - 48) * 10 ^ b'.length + digitsToNat b' := by
      show b'.foldl _ (10 * 0 + (c.toNat - 48)) = _
      rw [ih (10 * 0 + (c.toNat - 48))]
      ring
    simp only [List.foldl_cons]
    rw [ih (10 * n + (c.toNat - 48)), hd, List.length_cons]
    ring

lemma digitsToNat_append (a b : List Char) :
    digitsToNat (a ++ b) = digitsToNat a * 10 ^ b.length + digitsToNat b := by
  show (a ++ b).foldl _ 0 = _
  rw [List.foldl_append]
  exact digitsToNat_go b _

lemma all_digits (s : List Char) (h : DigitStr s) :
    s.all Char.isDigit = true :=
  List.all_eq_true.mpr (fun c hc => digitChar_isDigit c (h c hc))

/-- `float` on a pure digit run parses as the natural-number value. -/
lemma pyFloat?_int (a : List Char) (ha : DigitStr a) (hna : a ≠ []) :
    pyFloat? a = some ((digitsToNat a : ℚ)) := by
  have hstrip : pyStrip a = a :=
    pyStrip_of_no_ws a (fun c hc => digitChar_not_ws c (ha c hc))
  have hsp : pySplit ['.'] a = [a] :=
    pySplit_single_nosep '.' a (fun hm => (by decide : '.' ∉ digitChars) (ha '.' hm))
  cases a with
  | nil => exact absurd rfl hna
  | cons d a' =>
    have hd : d ∈ digitChars := ha d (List.mem_cons_self d a')
    simp only [pyFloat?, hstrip]
    have hsig : (match d :: a' with
        | '-' :: r => ((-1 : ℚ), r)
        | '+' :: r => ((1 : ℚ), r)
        | _ => ((1 : ℚ), d :: a')) = ((1 : ℚ), d :: a') := by
      split
      · rename_i r heq
        injection heq with h1 _
        exact absurd h1 (digitChar_ne d hd '-' (by decide))
      · rename_i r heq
        injection heq with h1 _
        exact absurd h1 (digitChar_ne d hd '+' (by decide))
      · rfl
    rw [hsig]
    rw [show ((1 : ℚ), d :: a').2 = d :: a' from rfl, hsp]
    simp [all_digits _ ha]

/-- `float` on `intPart.fracPart` (digit runs) parses as the decimal value. -/
lemma pyFloat?_dec (a b : List Char) (ha : DigitStr a) (hb : DigitStr b)
    (hna : a ≠ []) : pyFloat? (a ++ '.' :: b) = some (decVal a b) := by
  have hws : ∀ c ∈ a ++ '.' :: b, c.isWhitespace = false := by
    intro c hc
    rcases List.mem_append.mp hc with h | h
    · exact digitChar_not_ws c (ha c h)
    · rcases List.mem_cons.mp h with h | h
      · subst h; decide
      · exact digitChar_not_ws c (hb c h)
  have hstrip : pyStrip (a ++ '.' :: b) = a ++ '.' :: b := pyStrip_of_no_ws _ hws
  have hsp : pySplit ['.'] (a ++ '.' :: b) = [a, b] := by
    rw [pySplit_append_sep '.' a b
      (fun hm => (by decide : '.' ∉ digitChars) (ha '.' hm))]
    rw [pySplit_single_nosep '.' b
      (fun hm => (by decide : '.' ∉ digitChars) (hb '.' hm))]
  cases a with
  | nil => exact absurd rfl hna
  | cons d a' =>
    have hd : d ∈ digitChars := ha d (List.mem_cons_self d a')
    rw [show (d :: a') ++ '.' :: b = d :: (a' ++ '.' :: b) from rfl] at hsp hstrip ⊢
    simp only [pyFloat?, hstrip]
    have hsig : (match d :: (a' ++ '.' :: b) with
        | '-' :: r => ((-1 : ℚ), r)
        | '+' :: r => ((1 : ℚ), r)
        | _ => ((1 : ℚ), d :: (a' ++ '.' :: b))) =
        ((1 : ℚ), d :: (a' ++ '.' :: b)) := by
      split
      · rename_i r heq
        injection heq with h1 _
        exact absurd h1 (digitChar_ne d hd '-' (by decide))
      · rename_i r heq
        injection heq with h1 _
        exact absurd h1 (digitChar_ne d hd '+' (by decide))
      · rfl
    rw [hsig]
    rw [show ((1 : ℚ), d :: (a' ++ '.' :: b)).2 = d :: (a' ++ '.' :: b) from rfl,
      hsp]
    simp [all_digits _ ha, all_digits _ hb]

lemma notin_digit_comma (a b : List Char) (ha : DigitStr a) (hb : DigitStr b)
    (ch : Char) (h1 : ch ∉ digitChars) (h2 : ch ≠ ',') : ch ∉ a ++ ',' :: b := by
  intro hm
  rcases List.mem_append.mp hm with h | h
  · exact h1 (ha ch h)
  · rcases List.mem_cons.mp h with h | h
    · exact h2 h
    · exact h1 (hb ch h)

/-- The cleaning stage of `parse_price` on `digits , digits`: decimal
rewrite when at most two digits follow the comma, comma removal
otherwise. -/
lemma cleanPrice_comma (a b : List Char) (ha : DigitStr a) (hb : DigitStr b) :
    cleanPrice (a ++ ',' :: b) =
      if b.length ≤ 2 then a ++ '.' :: b else a ++ b := by
  have hnc : ∀ ch, ch ∉ digitChars → ch ≠ ',' → ch ∉ a ++ ',' :: b :=
    fun ch h1 h2 => notin_digit_comma a b ha hb ch h1 h2
  have hE := pyReplace_head_notin 'E' ['U', 'R'] [] _ (hnc 'E' (by decide) (by decide))
  have hD := pyReplace_head_notin '$' [] [] _ (hnc '$' (by decide) (by decide))
  have hL := pyReplace_head_notin '£' [] [] _ (hnc '£' (by decide) (by decide))
  have hU := pyReplace_head_notin '€' [] [] _ (hnc '€' (by decide) (by decide))
  have hws : ∀ ch ∈ a ++ ',' :: b, ch.isWhitespace = false := by
    intro ch hm
    rcases List.mem_append.mp hm with h | h
    · exact digitChar_not_ws ch (ha ch h)
    · rcases List.mem_cons.mp h with h | h
      · subst h; decide
      · exact digitChar_not_ws ch (hb ch h)
  have hstrip := pyStrip_of_no_ws _ hws
  have hto := pyContains_head_notin ' ' ['t', 'o', ' '] _ (hnc ' ' (by decide) (by decide))
  have hbis := pyContains_head_notin ' ' ['b', 'i', 's', ' '] _ (hnc ' ' (by decide) (by decide))
  have hcomma := pyContains_single_of_mem ',' (a ++ ',' :: b) (by simp)
  have hdot := pyContains_head_notin '.' [] _ (hnc '.' (by decide) (by decide))
  have hnca : ',' ∉ a := fun hm => (by decide : ',' ∉ digitChars) (ha ',' hm)
  have hncb : ',' ∉ b := fun hm => (by decide : ',' ∉ digitChars) (hb ',' hm)
  have hcount : (a ++ ',' :: b).count ',' = 1 := by
    rw [List.count_append, List.count_cons_self,
      List.count_eq_zero_of_not_mem hnca, List.count_eq_zero_of_not_mem hncb]
  have hsplit : pySplit [','] (a ++ ',' :: b) = [a, b] := by
    rw [pySplit_append_sep ',' a b hnca, pySplit_single_nosep ',' b hncb]
  simp only [cleanPrice, hE, hD, hL, hU, hstrip, hto, hbis]
  simp only [Bool.false_eq_true, or_self, if_false]
  rw [if_neg (fun h => by rw [hdot] at h; exact Bool.noConfusion h.2)]
  rw [if_pos ⟨hcomma, hcount⟩, hsplit]
  by_cases hb2 : b.length ≤ 2
  · rw [if_pos ⟨rfl, hb2⟩, if_pos hb2]
    rw [pyReplace_single_map]
    simp only [List.map_append, List.map_cons]
    rw [map_noop _ a (fun ch hc => by
      rw [if_neg (digitChar_ne ch (ha ch hc) ',' (by decide))])]
    rw [map_noop _ b (fun ch hc => by
      rw [if_neg (digitChar_ne ch (hb ch hc) ',' (by decide))])]
    simp
  · rw [if_neg (fun hcond => hb2 hcond.2), if_neg hb2]
    rw [pyReplace_single_del]
    simp only [List.filter_append, List.filter_cons]
    rw [filter_noop _ a (fun ch hc => by
      simp [digitChar_ne ch (ha ch hc) ',' (by decide)])]
    rw [filter_noop _ b (fun ch hc => by
      simp [digitChar_ne ch (hb ch hc) ',' (by decide)])]
    simp

/-- The cleaning stage of `parse_price` when both `.` and `,` occur:
dots removed, comma becomes the decimal dot. -/
lemma cleanPrice_both (a b c : List Char) (ha : DigitStr a) (hb : DigitStr b)
    (hc : DigitStr c) :
    cleanPrice (a ++ '.' :: b ++ ',' :: c) = (a ++ b) ++ '.' :: c := by
  have hnc : ∀ ch, ch ∉ digitChars → ch ≠ '.' → ch ≠ ',' →
      ch ∉ a ++ '.' :: b ++ ',' :: c := by
    intro ch h1 h2 h3 hm
    rcases List.mem_append.mp hm with h | h
    · rcases List.mem_append.mp h with h' | h'
      · exact h1 (ha ch h')
      · rcases List.mem_cons.mp h' with h'' | h''
        · exact h2 h''
        · exact h1 (hb ch h'')
    · rcases List.mem_cons.mp h with h' | h'
      · exact h3 h'
      · exact h1 (hc ch h')
  have hE := pyReplace_head_notin 'E' ['U', 'R'] [] _
    (hnc 'E' (by decide) (by decide) (by decide))
  have hD := pyReplace_head_notin '$' [] [] _
    (hnc '$' (by decide) (by decide) (by decide))
  have hL := pyReplace_head_notin '£' [] [] _
    (hnc '£' (by decide) (by decide) (by decide))
  have hU := pyReplace_head_notin '€' [] [] _
    (hnc '€' (by decide) (by decide) (by decide))
  have hws : ∀ ch ∈ a ++ '.' :: b ++ ',' :: c, ch.isWhitespace = false := by
    intro ch hm
    rcases List.mem_append.mp hm with h | h
    · rcases List.mem_append.mp h with h' | h'
      · exact digitChar_not_ws ch (ha ch h')
      · rcases List.mem_cons.mp h' with h'' | h''
        · subst h''; decide
        · exact digitChar_not_ws ch (hb ch h'')
    · rcases List.mem_cons.mp h with h' | h'
      · subst h'; decide
      · exact digitChar_not_ws ch (hc ch h')
  have hstrip := pyStrip_of_no_ws _ hws
  have hto := pyContains_head_notin ' ' ['t', 'o', ' '] _
    (hnc ' ' (by decide) (by decide) (by decide))
  have hbis := pyContains_head_notin ' ' ['b', 'i', 's', ' '] _
    (hnc ' ' (by decide) (by decide) (by decide))
  have hcomma := pyContains_single_of_mem ',' (a ++ '.' :: b ++ ',' :: c) (by simp)
  have hdot := pyContains_single_of_mem '.' (a ++ '.' :: b ++ ',' :: c) (by simp)
  simp only [cleanPrice, hE, hD, hL, hU, hstrip, hto, hbis]
  simp only [Bool.false_eq_true, or_self, if_false]
  rw [if_pos ⟨hcomma, hdot⟩]
  rw [pyReplace_single_del]
  simp only [List.filter_append, List.filter_cons]
  rw [filter_noop _ a (fun ch hm => by
    simp [digitChar_ne ch (ha ch hm) '.' (by decide)])]
  rw [filter_noop _ b (fun ch hm => by
    simp [digitChar_ne ch (hb ch hm) '.' (by decide)])]
  rw [filter_noop _ c (fun ch hm => by
    simp [digitChar_ne ch (hc ch hm) '.' (by decide)])]
  simp only [show (!('.' == '.')) = false from rfl, show (!(',' == '.')) = true from rfl,
    Bool.false_eq_true, if_false, if_true]
  rw [pyReplace_single_map]
  simp only [List.map_append, List.map_cons]
  rw [map_noop _ a (fun ch hm => by
    rw [if_neg (digitChar_ne ch (ha ch hm) ',' (by decide))])]
  rw [map_noop _ b (fun ch hm => by
    rw [if_neg (digitChar_ne ch (hb ch hm) ',' (by decide))])]
  rw [map_noop _ c (fun ch hm => by
    rw [if_neg (digitChar_ne ch (hc ch hm) ',' (by decide))])]
  simp

lemma DigitStr_append (a b : List Char) (ha : DigitStr a) (hb : DigitStr b) :
    DigitStr (a ++ b) := by
  intro ch hm
  rcases List.mem_append.mp hm with h | h
  · exact ha ch h
  · exact hb ch h

/-! ## C8 — the comma/dot disambiguation rule -/

/-- C8 counterexample: the claim's rule says a lone comma followed by
anything other than exactly two digits is a thousands separator, so
`"1,5"` would parse as `15`; the code treats a lone comma followed by
*at most* two digits as a decimal separator and parses `1.5`. -/
theorem C8_counterexample :
    parse_price ("1,5".toList) = 3 / 2 ∧ parse_price ("1,5".toList) ≠ 15 := by
  decide

/-- C8 (amended): for digit-run price texts, `parse_price` disambiguates
as follows: if both `.` and `,` appear, `.` is treated as thousands and
`,` as decimal; if only `,` appears (once) and **at most two** characters
follow it, the comma is a decimal separator; otherwise (more than two
digits following) the comma is a thousands separator. -/
theorem C8_comma_disambiguation (a b : List Char)
    (ha : DigitStr a) (hb : DigitStr b) (hna : a ≠ []) (_hnb : b ≠ []) :
    (b.length ≤ 2 → parse_price (a ++ ',' :: b) = decVal a b) ∧
    (2 < b.length → parse_price (a ++ ',' :: b) = (digitsToNat (a ++ b) : ℚ)) ∧
    (∀ c, DigitStr c →
      parse_price (a ++ '.' :: b ++ ',' :: c) = decVal (a ++ b) c) := by
  have hane : a ++ b ≠ [] := fun h => hna (List.append_eq_nil.mp h).1
  refine ⟨?_, ?_, ?_⟩
  · intro hb2
    rw [parse_price, cleanPrice_comma a b ha hb, if_pos hb2,
      pyFloat?_dec a b ha hb hna]
    rfl
  · intro hb2
    rw [parse_price, cleanPrice_comma a b ha hb, if_neg (not_le.mpr hb2),
      pyFloat?_int (a ++ b) (DigitStr_append a b ha hb) hane]
    rfl
  · intro c hcd
    rw [parse_price, cleanPrice_both a b c ha hb hcd,
      pyFloat?_dec (a ++ b) c (DigitStr_append a b ha hb) hcd hane]
    rfl

/-- Witness for C8: `"12,34"` parses as the decimal `12.34`. -/
theorem C8_witness :
    parse_price (['1', '2'] ++ ',' :: ['3', '4']) = decVal ['1', '2'] ['3', '4'] :=
  (C8_comma_disambiguation ['1', '2'] ['3', '4'] (by decide) (by decide)
    (by decide) (by decide)).1 (by decide)

/-! ## C3 — staleness work-list membership -/

/-- C3 (amended): an entity processed by the reconcile loop enters the
staleness work-list exactly when it is a new insert, or exists with a null
`last_ebay_check`, or its *floored whole-day* age
`(now - lastCheck).days` strictly exceeds the threshold — i.e. the last
check lies at least `threshold + 1` full days in the past, not merely
"strictly more than threshold days".  In particular, for any positive
threshold an entity last checked `now - (threshold+1) days` is included
and one last checked `now - (threshold-1) days` is excluded. -/
theorem C3_staleness_membership (threshold now : Int) (db : Db)
    (p : ProductData) (hid : db.next_id ≠ 0) :
    ((processOneProduct threshold now db p).2.isSome = true ↔
      find_by_source_url db p.source_url = none
      ∨ (∃ pid pr, find_by_source_url db p.source_url = some (pid, pr, none))
      ∨ (∃ pid pr t, find_by_source_url db p.source_url = some (pid, pr, some t)
          ∧ threshold < Int.fdiv (now - t) 86400)) ∧
    (∀ pid pr, 1 ≤ threshold →
      find_by_source_url db p.source_url =
        some (pid, pr, some (now - (threshold + 1) * 86400)) →
      (processOneProduct threshold now db p).2.isSome = true) ∧
    (∀ pid pr, 1 ≤ threshold →
      find_by_source_url db p.source_url =
        some (pid, pr, some (now - (threshold - 1) * 86400)) →
      (processOneProduct threshold now db p).2 = none) := by
  have hiff : (processOneProduct threshold now db p).2.isSome = true ↔
      find_by_source_url db p.source_url = none
      ∨ (∃ pid pr, find_by_source_url db p.source_url = some (pid, pr, none))
      ∨ (∃ pid pr t, find_by_source_url db p.source_url = some (pid, pr, some t)
          ∧ threshold < Int.fdiv (now - t) 86400) := by
    rcases hf : find_by_source_url db p.source_url with _ | ⟨pid, pr, lc⟩
    · have hpt : pyTruthyId (some db.next_id) = true := by
        simp [pyTruthyId, hid]
      simp [processOneProduct, hf, insert_product, hpt]
    · cases lc with
      | none => simp [processOneProduct, hf]
      | some t =>
        simp only [processOneProduct, hf]
        by_cases hgt : Int.fdiv (now - t) 86400 > threshold
        · simp only [hgt, if_true, Option.isSome_some, true_iff]
          exact Or.inr (Or.inr ⟨pid, pr, t, rfl, hgt⟩)
        · simp [hgt]
          omega
  refine ⟨hiff, ?_, ?_⟩
  · intro pid pr _hth hf
    apply hiff.mpr
    refine Or.inr (Or.inr ⟨pid, pr, now - (threshold + 1) * 86400, hf, ?_⟩)
    have h1 : now - (now - (threshold + 1) * 86400) = (threshold + 1) * 86400 := by
      ring
    rw [h1, Int.mul_fdiv_cancel _ (by norm_num)]
    omega
  · intro pid pr _hth hf
    have hnot : ¬((processOneProduct threshold now db p).2.isSome = true) := by
      intro hs
      rcases hiff.mp hs with h | ⟨pid', pr', heq⟩ | ⟨pid', pr', t', heq, hlt⟩
      · rw [hf] at h
        exact Option.noConfusion h
      · rw [hf] at heq
        have h4 := congrArg (fun q => q.2.2) (Option.some_inj.mp heq)
        simp at h4
      · rw [hf] at heq
        have h3 := (Option.some_inj.mp heq)
        have ht' : t' = now - (threshold - 1) * 86400 := by
          have h4 := congrArg (fun q => q.2.2) h3
          simpa using h4.symm
        subst ht'
        have h1 : now - (now - (threshold - 1) * 86400) = (threshold - 1) * 86400 := by
          ring
        rw [h1, Int.mul_fdiv_cancel _ (by norm_num)] at hlt
        omega
    simpa [Option.not_isSome_iff_eq_none] using hnot

/-- Fixtures for C3: a catalog with one entity last checked at instant 0
(product id 1, source URL "u"). -/
def rowC3 : ProductRow :=
  { id := 1, name := "P", price := 100, discount := some 0, source_url := "u",
    image_url := none, is_active := true, category := "Unknown",
    last_ebay_check := some 0, potential_profit := none,
    profit_percentage := none, is_profitable := false, min_ebay_price := none,
    created_at := 0, updated_at := 0 }

def dbC3 : Db :=
  { products := [rowC3], price_logs := [], ebay_listings := [], next_id := 2 }

def pC3 : ProductData :=
  { name := "P", price := 100, discount := some 0, source_url := "u",
    image_url := none, category := "Unknown" }

/-- C3 counterexample: with threshold 14 days, an entity last checked
14 days and 1 hour ago (strictly more than 14 days) is *excluded* from
the staleness work-list, because `timedelta.days` floors to 14, which is
not `> 14`. -/
theorem C3_counterexample :
    ((1213200 : Int) - 0 > 14 * 86400) ∧
    (process_scraped_products dbC3 [pC3] 14 1213200).2 = [] := by
  decide

/-- The C3 fixture entity, last checked exactly 15 whole days before
instant 0. -/
def dbC3w : Db :=
  { products := [{ rowC3 with last_ebay_check := some (-1296000) }],
    price_logs := [], ebay_listings := [], next_id := 2 }

/-- Witness for C3: the `threshold + 1 days` instance is included. -/
theorem C3_witness :
    ((processOneProduct 14 0 dbC3w pC3).2).isSome = true :=
  (C3_staleness_membership 14 0 dbC3w pC3 (by decide)).2.1 1 100 (by decide)
    (by decide)

/-! ## C5 — idempotence of reconcile

Specification-side descriptions of what one reconcile pass does to the
catalog, used to characterise `process_scraped_products` and derive the
second-run behaviour. -/

/-- Erase the volatile columns: `updated_at` always changes, and the
`discount` column is compared up to the `NULL`-vs-`0` normalisation the
second call applies (`update_product` rewrites a `NULL` discount to 0). -/
def eraseVolatile (r : ProductRow) : ProductRow :=
  { r with updated_at := 0, discount := some (r.discount.getD 0) }

/-- Database wellformedness: the SQL constraints the repository relies on
(serial primary keys are positive, below the sequence value and unique;
`source_url` is UNIQUE). -/
def Db.Wf (db : Db) : Prop :=
  (∀ r ∈ db.products, r.id ≠ 0 ∧ r.id < db.next_id) ∧
  (db.products.map (fun r => r.id)).Nodup ∧
  (db.products.map (fun r => r.source_url)).Nodup ∧
  db.next_id ≠ 0

/-- The field assignment `update_product` applies to the matched row. -/
def appliedRow (p : ProductData) (now : Int) (r : ProductRow) : ProductRow :=
  { r with price := p.price, discount := some (p.discount.getD 0),
           is_active := true, updated_at := now }

/-- The per-row function `update_product` maps over the table: rewrite the
row whose id matches, leave the others. -/
def updFun (p : ProductData) (r0id : Nat) (now : Int) (r : ProductRow) :
    ProductRow :=
  if r.id = r0id then appliedRow p now r else r

/-- The effect of one reconcile pass on an existing row: updated when some
batch entry carries its source URL, untouched otherwise. -/
def updRow (ps : List ProductData) (now : Int) (r : ProductRow) : ProductRow :=
  match ps.find? (fun p => p.source_url = r.source_url) with
  | some p => appliedRow p now r
  | none => r

/-- The row `insert_product` creates. -/
def newRow (p : ProductData) (id : Nat) (now : Int) : ProductRow :=
  { id := id, name := p.name, price := p.price, discount := p.discount,
    source_url := p.source_url, image_url := p.image_url, is_active := true,
    category := p.category, last_ebay_check := none, potential_profit := none,
    profit_percentage := none, is_profitable := false, min_ebay_price := none,
    created_at := now, updated_at := now }

/-- The rows one reconcile pass inserts: one per batch entry whose source
URL is not among `urls`, with consecutive ids from `nid`. -/
def newRows (urls : List String) (nid : Nat) (now : Int) :
    List ProductData → List ProductRow
  | [] => []
  | p :: ps =>
    if p.source_url ∈ urls then newRows urls nid now ps
    else newRow p nid now :: newRows urls (nid + 1) now ps

/-- `{ r with is_active := false }`, the per-row effect of
`deactivate_all_products`. -/
def deactRow (r : ProductRow) : ProductRow := { r with is_active := false }

lemma mapCongrMem {α β : Type} (f g : α → β) (l : List α)
    (h : ∀ a ∈ l, f a = g a) : l.map f = l.map g := by
  induction l with
  | nil => rfl
  | cons a l ih =>
    simp only [List.map_cons, h a (List.mem_cons_self a l)]
    rw [ih (fun x hx => h x (List.mem_cons_of_mem _ hx))]

lemma updRow_url (ps : List ProductData) (now : Int) (r : ProductRow) :
    (updRow ps now r).source_url = r.source_url := by
  rw [updRow]
  split <;> rfl

lemma updRow_id (ps : List ProductData) (now : Int) (r : ProductRow) :
    (updRow ps now r).id = r.id := by
  rw [updRow]
  split <;> rfl

lemma newRows_length_nid (urls : List String) (now : Int)
    (ps : List ProductData) : ∀ nid nid' : Nat,
    (newRows urls nid now ps).length = (newRows urls nid' now ps).length := by
  induction ps with
  | nil => intro _ _; rfl
  | cons p ps ih =>
    intro nid nid'
    simp only [newRows]
    by_cases hm : p.source_url ∈ urls
    · simp only [if_pos hm]
      exact ih nid nid'
    · simp only [if_neg hm, List.length_cons]
      rw [ih (nid + 1) (nid' + 1)]

lemma newRows_congr (now : Int) (ps : List ProductData) :
    ∀ (urls₁ urls₂ : List String) (nid : Nat),
    (∀ q ∈ ps, (q.source_url ∈ urls₁ ↔ q.source_url ∈ urls₂)) →
    newRows urls₁ nid now ps = newRows urls₂ nid now ps := by
  induction ps with
  | nil => intro _ _ _ _; rfl
  | cons p ps ih =>
    intro urls₁ urls₂ nid h
    simp only [newRows]
    by_cases hm : p.source_url ∈ urls₁
    · rw [if_pos hm, if_pos ((h p (List.mem_cons_self p ps)).mp hm)]
      exact ih urls₁ urls₂ nid (fun q hq => h q (List.mem_cons_of_mem _ hq))
    · rw [if_neg hm, if_neg (fun hm2 => hm ((h p (List.mem_cons_self p ps)).mpr hm2))]
      rw [ih urls₁ urls₂ (nid + 1) (fun q hq => h q (List.mem_cons_of_mem _ hq))]

lemma newRows_nil_of_all_mem (urls : List String) (nid : Nat) (now : Int)
    (ps : List ProductData) (h : ∀ p ∈ ps, p.source_url ∈ urls) :
    newRows urls nid now ps = [] := by
  induction ps generalizing nid with
  | nil => rfl
  | cons p ps ih =>
    simp only [newRows, if_pos (h p (List.mem_cons_self p ps))]
    exact ih nid (fun q hq => h q (List.mem_cons_of_mem _ hq))

lemma newRows_mem_urls (now : Int) (ps : List ProductData) :
    ∀ (urls : List String) (nid : Nat) (u : String),
    u ∈ ps.map (fun p => p.source_url) → u ∉ urls →
    u ∈ (newRows urls nid now ps).map (fun r => r.source_url) := by
  induction ps with
  | nil => intro _ _ _ h _; simp at h
  | cons p ps ih =>
    intro urls nid u hu hnu
    simp only [List.map_cons, List.mem_cons] at hu
    simp only [newRows]
    by_cases hm : p.source_url ∈ urls
    · rw [if_pos hm]
      rcases hu with h | h
      · exact absurd (h ▸ hm) hnu
      · exact ih urls nid u h hnu
    · rw [if_neg hm]
      rcases hu with h | h
      · simp [newRow, h]
      · simp only [List.map_cons, List.mem_cons]
        exact Or.inr (ih urls (nid + 1) u h hnu)

lemma newRows_mem (now : Int) (ps : List ProductData) :
    ∀ (urls : List String) (nid : Nat) (r : ProductRow),
    r ∈ newRows urls nid now ps →
    ∃ p ∈ ps, ∃ i, r = newRow p i now ∧ p.source_url ∉ urls := by
  induction ps with
  | nil => intro _ _ _ h; simp [newRows] at h
  | cons p ps ih =>
    intro urls nid r hr
    simp only [newRows] at hr
    by_cases hm : p.source_url ∈ urls
    · rw [if_pos hm] at hr
      obtain ⟨q, hq, i, hi, hnu⟩ := ih urls nid r hr
      exact ⟨q, List.mem_cons_of_mem _ hq, i, hi, hnu⟩
    · rw [if_neg hm] at hr
      rcases List.mem_cons.mp hr with h | h
      · exact ⟨p, List.mem_cons_self p ps, nid, h, hm⟩
      · obtain ⟨q, hq, i, hi, hnu⟩ := ih urls (nid + 1) r h
        exact ⟨q, List.mem_cons_of_mem _ hq, i, hi, hnu⟩

lemma updRow_eq_found (ps : List ProductData) (now : Int) (r : ProductRow)
    (p : ProductData)
    (h : ps.find? (fun q => q.source_url = r.source_url) = some p) :
    updRow ps now r = appliedRow p now r := by
  rw [updRow, h]

lemma updRow_eq_notfound (ps : List ProductData) (now : Int) (r : ProductRow)
    (h : ps.find? (fun q => q.source_url = r.source_url) = none) :
    updRow ps now r = r := by
  rw [updRow, h]

lemma find?_cons_self (ps : List ProductData) (p : ProductData)
    (r : ProductRow) (h : p.source_url = r.source_url) :
    (p :: ps).find? (fun q => q.source_url = r.source_url) = some p := by
  rw [List.find?_cons, decide_eq_true h]

lemma find?_cons_ne (ps : List ProductData) (p : ProductData)
    (r : ProductRow) (h : ¬p.source_url = r.source_url) :
    (p :: ps).find? (fun q => q.source_url = r.source_url)
      = ps.find? (fun q => q.source_url = r.source_url) := by
  rw [List.find?_cons, decide_eq_false h]

lemma updRow_cons_ne (ps : List ProductData) (p : ProductData) (now : Int)
    (r : ProductRow) (h : ¬p.source_url = r.source_url) :
    updRow (p :: ps) now r = updRow ps now r := by
  rw [updRow, updRow, find?_cons_ne ps p r h]

lemma find?_none_of_notin (ps : List ProductData) (u : String)
    (h : u ∉ ps.map (fun p => p.source_url)) :
    ps.find? (fun q => q.source_url = u) = none := by
  rw [List.find?_eq_none]
  intro q hq
  simp only [decide_eq_true_eq]
  exact fun he => h (he ▸ List.mem_map_of_mem (fun p => p.source_url) hq)

lemma findRow_none_of_notin (l : List ProductRow) (u : String)
    (h : u ∉ l.map (fun r => r.source_url)) :
    l.find? (fun r => r.source_url = u) = none := by
  rw [List.find?_eq_none]
  intro r hr
  simp only [decide_eq_true_eq]
  exact fun he => h (he ▸ List.mem_map_of_mem (fun r => r.source_url) hr)

lemma findRow_some_of_mem (l : List ProductRow) (u : String)
    (h : u ∈ l.map (fun r => r.source_url)) :
    ∃ r0, l.find? (fun r => r.source_url = u) = some r0 ∧
      r0 ∈ l ∧ r0.source_url = u := by
  cases hf : l.find? (fun r => r.source_url = u) with
  | none =>
    exfalso
    rw [List.find?_eq_none] at hf
    obtain ⟨r, hr, hru⟩ := List.mem_map.mp h
    exact hf r hr (decide_eq_true hru)
  | some r0 =>
    refine ⟨r0, rfl, List.mem_of_find?_eq_some hf, ?_⟩
    have := List.find?_some hf
    simpa using this

lemma nodup_map_inj {α β : Type} (f : α → β) (l : List α)
    (hnd : (l.map f).Nodup) {x y : α} (hx : x ∈ l) (hy : y ∈ l)
    (hf : f x = f y) : x = y := by
  induction l with
  | nil => simp at hx
  | cons a l ih =>
    rw [List.map_cons, List.nodup_cons] at hnd
    rcases List.mem_cons.mp hx with hx1 | hx1 <;>
      rcases List.mem_cons.mp hy with hy1 | hy1
    · exact hx1.trans hy1.symm
    · subst hx1
      exact absurd (by rw [hf]; exact List.mem_map_of_mem f hy1) hnd.1
    · subst hy1
      exact absurd (by rw [← hf]; exact List.mem_map_of_mem f hx1) hnd.1
    · exact ih hnd.2 hx1 hy1

lemma map_url_map (l : List ProductRow) (f : ProductRow → ProductRow)
    (hurl : ∀ r, (f r).source_url = r.source_url) :
    (l.map f).map (fun r => r.source_url) = l.map (fun r => r.source_url) := by
  rw [List.map_map]
  exact mapCongrMem _ _ _ (fun r _ => hurl r)

lemma Wf_of_products_map (db : Db) (f : ProductRow → ProductRow) (db' : Db)
    (hp : db'.products = db.products.map f) (hn : db'.next_id = db.next_id)
    (hid : ∀ r, (f r).id = r.id) (hurl : ∀ r, (f r).source_url = r.source_url)
    (hwf : db.Wf) : db'.Wf := by
  obtain ⟨hb, hi, hu, hn0⟩ := hwf
  refine ⟨?_, ?_, ?_, ?_⟩
  · intro r hr
    rw [hp] at hr
    obtain ⟨r0, hr0, rfl⟩ := List.mem_map.mp hr
    rw [hid, hn]
    exact hb r0 hr0
  · rw [hp, List.map_map,
      mapCongrMem ((fun (r : ProductRow) => r.id) ∘ f) (fun r => r.id)
        db.products (fun r _ => hid r)]
    exact hi
  · rw [hp, List.map_map,
      mapCongrMem ((fun (r : ProductRow) => r.source_url) ∘ f)
        (fun r => r.source_url) db.products (fun r _ => hurl r)]
    exact hu
  · rw [hn]
    exact hn0

lemma Wf_deactivate (db : Db) (hwf : db.Wf) :
    (deactivate_all_products db).Wf :=
  Wf_of_products_map db (fun r => { r with is_active := false })
    (deactivate_all_products db) rfl rfl
    (fun _ => rfl) (fun _ => rfl) hwf

lemma deact_urls (db : Db) :
    (deactivate_all_products db).products.map (fun r => r.source_url)
      = db.products.map (fun r => r.source_url) :=
  map_url_map db.products (fun r => { r with is_active := false })
    (fun _ => rfl)

lemma Wf_insert (db : Db) (p : ProductData) (now : Int) (hwf : db.Wf)
    (hmem : p.source_url ∉ db.products.map (fun r => r.source_url)) :
    Db.Wf { db with products := db.products ++ [newRow p db.next_id now],
                    next_id := db.next_id + 1 } := by
  obtain ⟨hbound, hidnd, hurlnd, hnid0⟩ := hwf
  refine ⟨?_, ?_, ?_, Nat.succ_ne_zero _⟩
  · show ∀ r ∈ db.products ++ [newRow p db.next_id now],
      r.id ≠ 0 ∧ r.id < db.next_id + 1
    intro r hr
    rcases List.mem_append.mp hr with hr | hr
    · exact ⟨(hbound r hr).1, Nat.lt_succ_of_lt (hbound r hr).2⟩
    · rw [List.mem_singleton.mp hr]
      exact ⟨hnid0, Nat.lt_succ_self _⟩
  · show ((db.products ++ [newRow p db.next_id now]).map (fun r => r.id)).Nodup
    rw [List.map_append]
    refine List.nodup_append.mpr ⟨hidnd, List.nodup_singleton _,
      fun a ha hb => ?_⟩
    obtain ⟨r, hr, rfl⟩ := List.mem_map.mp ha
    have hb' : r.id = db.next_id := by simpa [newRow] using hb
    exact absurd (hbound r hr).2 (by rw [hb']; exact lt_irrefl _)
  · show ((db.products ++ [newRow p db.next_id now]).map
      (fun r => r.source_url)).Nodup
    rw [List.map_append]
    refine List.nodup_append.mpr ⟨hurlnd, List.nodup_singleton _,
      fun a ha hb => ?_⟩
    have hb' : a = p.source_url := by simpa [newRow] using hb
    rw [hb'] at ha
    exact hmem ha

lemma erase_pass2_fix (ps : List ProductData) (now₁ now₂ : Int)
    (r : ProductRow) :
    eraseVolatile (updRow ps now₂ (deactRow (updRow ps now₁ (deactRow r))))
      = eraseVolatile (updRow ps now₁ (deactRow r)) := by
  cases h : ps.find? (fun q => q.source_url = r.source_url) with
  | none =>
    have h1 : ps.find? (fun q => q.source_url = (deactRow r).source_url)
        = none := h
    rw [updRow_eq_notfound ps now₁ (deactRow r) h1]
    have h2 : ps.find?
        (fun q => q.source_url = (deactRow (deactRow r)).source_url)
        = none := h
    rw [updRow_eq_notfound ps now₂ (deactRow (deactRow r)) h2]
    rfl
  | some p =>
    have h1 : ps.find? (fun q => q.source_url = (deactRow r).source_url)
        = some p := h
    rw [updRow_eq_found ps now₁ (deactRow r) p h1]
    have h2 : ps.find? (fun q =>
        q.source_url = (deactRow (appliedRow p now₁ (deactRow r))).source_url)
        = some p := h
    rw [updRow_eq_found ps now₂ (deactRow (appliedRow p now₁ (deactRow r))) p h2]
    rfl

lemma erase_pass2_new (ps : List ProductData) (p : ProductData) (i : Nat)
    (now₁ now₂ : Int)
    (hfind : ps.find? (fun q => q.source_url = p.source_url) = some p) :
    eraseVolatile (updRow ps now₂ (deactRow (newRow p i now₁)))
      = eraseVolatile (newRow p i now₁) := by
  have h1 : ps.find?
      (fun q => q.source_url = (deactRow (newRow p i now₁)).source_url)
      = some p := hfind
  rw [updRow_eq_found ps now₂ (deactRow (newRow p i now₁)) p h1]
  rfl

lemma find?_eq_of_mem_nodup (ps : List ProductData) (p : ProductData)
    (hnd : (ps.map (fun q => q.source_url)).Nodup) (hp : p ∈ ps) :
    ps.find? (fun q => q.source_url = p.source_url) = some p := by
  induction ps with
  | nil => simp at hp
  | cons q ps ih =>
    rw [List.map_cons, List.nodup_cons] at hnd
    rcases List.mem_cons.mp hp with h | h
    · subst h
      simp [List.find?_cons]
    · have hq : ¬q.source_url = p.source_url := fun hq =>
        hnd.1 (hq ▸ List.mem_map_of_mem (fun r => r.source_url) h)
      rw [List.find?_cons, decide_eq_false hq]
      exact ih hnd.2 h

/-- One reconcile fold pass, characterised: existing rows are rewritten by
`updRow`, unseen batch entries are appended as `newRows`, one price-history
row is appended per batch entry, the comparison table is untouched, and
wellformedness is preserved. -/
lemma foldl_reconcile_char (θ now : Int) (ps : List ProductData) :
    ∀ (db : Db) (acc : List CheckEntry), db.Wf →
    (ps.map (fun p => p.source_url)).Nodup →
    ∀ res : Db × List CheckEntry,
    res = ps.foldl (fun st p =>
        let r := processOneProduct θ now st.1 p
        (r.1, st.2 ++ r.2.toList)) (db, acc) →
    res.1.products = db.products.map (updRow ps now)
        ++ newRows (db.products.map (fun r => r.source_url))
            db.next_id now ps ∧
    res.1.next_id = db.next_id
        + (newRows (db.products.map (fun r => r.source_url))
            db.next_id now ps).length ∧
    (∃ L, res.1.price_logs = db.price_logs ++ L ∧
        L.map (fun e => e.price) = ps.map (fun p => p.price) ∧
        ∀ e ∈ L, e.scraped_at = now) ∧
    res.1.ebay_listings = db.ebay_listings ∧
    res.1.Wf := by
  induction ps with
  | nil =>
    intro db acc hwf _ res hres
    subst hres
    refine ⟨?_, rfl, ⟨[], (List.append_nil _).symm, rfl, by simp⟩, rfl, hwf⟩
    show db.products = db.products.map (updRow [] now) ++ []
    rw [List.append_nil,
      mapCongrMem (updRow [] now) id db.products
        (fun r _ => updRow_eq_notfound [] now r rfl), List.map_id]
  | cons p ps ih =>
    intro db acc hwf hnd res hres
    rw [List.map_cons, List.nodup_cons] at hnd
    obtain ⟨hp_notin, hnd2⟩ := hnd
    obtain ⟨hbound, hidnd, hurlnd, hnid0⟩ := hwf
    rw [List.foldl_cons] at hres
    by_cases hmem : p.source_url ∈ db.products.map (fun r => r.source_url)
    · -- existing row: update + price log
      obtain ⟨r0, hr0, hr0mem, hr0url⟩ :=
        findRow_some_of_mem db.products p.source_url hmem
      have hid0 : r0.id ≠ 0 := (hbound r0 hr0mem).1
      have hfst : (processOneProduct θ now db p).1
          = add_price_log (update_product db r0.id p.price p.discount now)
              r0.id p.price now := by
        simp [processOneProduct, find_by_source_url, hr0, pyTruthyId, hid0]
      have hstep : (let r := processOneProduct θ now (db, acc).1 p
            (r.1, (db, acc).2 ++ r.2.toList))
          = (add_price_log (update_product db r0.id p.price p.discount now)
              r0.id p.price now,
             acc ++ (processOneProduct θ now db p).2.toList) := by
        show ((processOneProduct θ now db p).1,
          acc ++ (processOneProduct θ now db p).2.toList) = _
        rw [hfst]
      rw [hstep] at hres
      have hwf2 : Db.Wf (add_price_log
          (update_product db r0.id p.price p.discount now) r0.id p.price now) :=
        Wf_of_products_map db (updFun p r0.id now) _ rfl rfl
          (fun r => by rw [updFun]; split <;> rfl)
          (fun r => by rw [updFun]; split <;> rfl)
          ⟨hbound, hidnd, hurlnd, hnid0⟩
      obtain ⟨h1, h2, ⟨L, h3, h3m, h3t⟩, h4, h5⟩ :=
        ih (add_price_log (update_product db r0.id p.price p.discount now)
              r0.id p.price now)
          (acc ++ (processOneProduct θ now db p).2.toList) hwf2 hnd2 res hres
      have e_prod : (add_price_log
            (update_product db r0.id p.price p.discount now)
            r0.id p.price now).products
          = db.products.map (updFun p r0.id now) := rfl
      have e_nid : (add_price_log
            (update_product db r0.id p.price p.discount now)
            r0.id p.price now).next_id = db.next_id := rfl
      have e_urls : (add_price_log
            (update_product db r0.id p.price p.discount now)
            r0.id p.price now).products.map (fun r => r.source_url)
          = db.products.map (fun r => r.source_url) := by
        rw [e_prod]
        exact map_url_map db.products _
          (fun r => by rw [updFun]; split <;> rfl)
      have hpt : ∀ r ∈ db.products,
          updRow ps now (updFun p r0.id now r) = updRow (p :: ps) now r := by
        intro r hr
        by_cases hrid : r.id = r0.id
        · have hreq : r = r0 :=
            nodup_map_inj (fun r => r.id) db.products hidnd hr hr0mem hrid
          have hru : p.source_url = r.source_url := by
            rw [hreq]
            exact hr0url.symm
          rw [updFun, if_pos hrid,
            updRow_eq_found (p :: ps) now r p (find?_cons_self ps p r hru)]
          have hnone : ps.find? (fun q => q.source_url = r.source_url)
              = none :=
            find?_none_of_notin ps r.source_url (by rw [← hru]; exact hp_notin)
          rw [updRow_eq_notfound ps now (appliedRow p now r) hnone]
        · have hru : ¬p.source_url = r.source_url := by
            intro h
            apply hrid
            have hreq : r = r0 :=
              nodup_map_inj (fun q => q.source_url) db.products hurlnd hr
                hr0mem
                (by show r.source_url = r0.source_url; rw [← h]
                    exact hr0url.symm)
            rw [hreq]
          rw [updFun, if_neg hrid]
          exact (updRow_cons_ne ps p now r hru).symm
      refine ⟨?_, ?_, ⟨⟨r0.id, p.price, now⟩ :: L, ?_, ?_, ?_⟩, ?_, h5⟩
      · rw [h1, e_urls, e_nid, e_prod, List.map_map,
          mapCongrMem (updRow ps now ∘ updFun p r0.id now)
            (updRow (p :: ps) now) db.products hpt]
        simp only [newRows]
        rw [if_pos hmem]
      · rw [h2, e_urls, e_nid]
        simp only [newRows]
        rw [if_pos hmem]
      · rw [h3]
        show (db.price_logs ++ [⟨r0.id, p.price, now⟩]) ++ L = _
        rw [List.append_assoc]
        rfl
      · simp only [List.map_cons, h3m]
      · intro e he
        rcases List.mem_cons.mp he with rfl | he
        · rfl
        · exact h3t e he
      · rw [h4]
        rfl
    · -- unseen row: insert + price log
      have hfindN : db.products.find? (fun r => r.source_url = p.source_url)
          = none := findRow_none_of_notin db.products p.source_url hmem
      have hfst : (processOneProduct θ now db p).1
          = add_price_log
              { db with products := db.products ++ [newRow p db.next_id now],
                        next_id := db.next_id + 1 }
              db.next_id p.price now := by
        simp [processOneProduct, find_by_source_url, hfindN, pyTruthyId,
          hnid0, insert_product, newRow]
      have hstep : (let r := processOneProduct θ now (db, acc).1 p
            (r.1, (db, acc).2 ++ r.2.toList))
          = (add_price_log
              { db with products := db.products ++ [newRow p db.next_id now],
                        next_id := db.next_id + 1 }
              db.next_id p.price now,
             acc ++ (processOneProduct θ now db p).2.toList) := by
        show ((processOneProduct θ now db p).1,
          acc ++ (processOneProduct θ now db p).2.toList) = _
        rw [hfst]
      rw [hstep] at hres
      have hwf2 : Db.Wf (add_price_log
          { db with products := db.products ++ [newRow p db.next_id now],
                    next_id := db.next_id + 1 }
          db.next_id p.price now) :=
        Wf_insert db p now ⟨hbound, hidnd, hurlnd, hnid0⟩ hmem
      obtain ⟨h1, h2, ⟨L, h3, h3m, h3t⟩, h4, h5⟩ :=
        ih (add_price_log
            { db with products := db.products ++ [newRow p db.next_id now],
                      next_id := db.next_id + 1 }
            db.next_id p.price now)
          (acc ++ (processOneProduct θ now db p).2.toList) hwf2 hnd2 res hres
      have e_prods : (add_price_log
            { db with products := db.products ++ [newRow p db.next_id now],
                      next_id := db.next_id + 1 }
            db.next_id p.price now).products
          = db.products ++ [newRow p db.next_id now] := rfl
      have e_nid : (add_price_log
            { db with products := db.products ++ [newRow p db.next_id now],
                      next_id := db.next_id + 1 }
            db.next_id p.price now).next_id = db.next_id + 1 := rfl
      have e_urls : (add_price_log
            { db with products := db.products ++ [newRow p db.next_id now],
                      next_id := db.next_id + 1 }
            db.next_id p.price now).products.map (fun r => r.source_url)
          = db.products.map (fun r => r.source_url) ++ [p.source_url] := by
        show (db.products ++ [newRow p db.next_id now]).map
          (fun r => r.source_url) = _
        rw [List.map_append]
        rfl
      have e_newRows : newRows
            (db.products.map (fun r => r.source_url) ++ [p.source_url])
            (db.next_id + 1) now ps
          = newRows (db.products.map (fun r => r.source_url))
              (db.next_id + 1) now ps := by
        apply newRows_congr
        intro q hq
        have hqp : ¬q.source_url = p.source_url := by
          intro h
          exact hp_notin (h ▸ List.mem_map_of_mem (fun p => p.source_url) hq)
        constructor
        · intro hqm
          rcases List.mem_append.mp hqm with hqm | hqm
          · exact hqm
          · exact absurd (List.mem_singleton.mp hqm) hqp
        · exact List.mem_append_left _
      refine ⟨?_, ?_, ⟨⟨db.next_id, p.price, now⟩ :: L, ?_, ?_, ?_⟩, ?_, h5⟩
      · rw [h1, e_urls, e_nid, e_newRows, e_prods]
        rw [List.map_append,
          mapCongrMem (updRow ps now) (updRow (p :: ps) now) db.products
            (fun r hr => (updRow_cons_ne ps p now r (fun h =>
              hmem (h ▸ List.mem_map_of_mem (fun r => r.source_url) hr))).symm)]
        have hnewfix : ([newRow p db.next_id now].map (updRow ps now))
            = [newRow p db.next_id now] := by
          rw [List.map_singleton,
            updRow_eq_notfound ps now (newRow p db.next_id now)
              (find?_none_of_notin ps p.source_url hp_notin)]
        rw [hnewfix]
        simp only [newRows]
        rw [if_neg hmem, List.append_assoc]
        rfl
      · rw [h2, e_urls, e_nid, e_newRows]
        simp only [newRows]
        rw [if_neg hmem, List.length_cons]
        omega
      · rw [h3]
        show (db.price_logs ++ [⟨db.next_id, p.price, now⟩]) ++ L = _
        rw [List.append_assoc]
        rfl
      · simp only [List.map_cons, h3m]
      · intro e he
        rcases List.mem_cons.mp he with rfl | he
        · rfl
        · exact h3t e he
      · rw [h4]
        rfl

/-- C5 (counterexample): the second reconcile call does change a catalog
column other than `updated_at`.  With a single-entity batch whose
`discount` is `None`, the first call inserts the row with a `NULL`
discount (`insert_product` passes the dictionary value through), while the
second call routes the same entity through `update_product`, whose
`discount if discount is not None else 0` rewrites the column to `0`. -/
theorem C5_counterexample :
    (process_scraped_products ⟨[], [], [], 1⟩
        [⟨"X", 10, none, "u", none, "c"⟩] 14 100).1.products.map
          (fun r => r.discount) = [none] ∧
    (process_scraped_products (process_scraped_products ⟨[], [], [], 1⟩
        [⟨"X", 10, none, "u", none, "c"⟩] 14 100).1
        [⟨"X", 10, none, "u", none, "c"⟩] 14 200).1.products.map
          (fun r => r.discount) = [some 0] := by
  constructor <;> rfl

/-- C5 (amended): running `process_scraped_products` twice with an
identical fresh-entity batch (distinct source URLs) leaves every catalog
row unchanged from its post-first-call state up to `eraseVolatile` — i.e.
except for `updated_at` and, for batch entries carrying no discount, the
`discount` column (`NULL` after the insert, `0` after the second call's
update); the id sequence does not advance (no row is inserted), and
exactly one new price-history row per batch entity is appended, carrying
the entity's price and the second run's timestamp. -/
theorem C5_reconcile_idempotent (db : Db) (ps : List ProductData)
    (θ now₁ now₂ : Int) (hwf : db.Wf)
    (hnd : (ps.map (fun p => p.source_url)).Nodup) :
    (process_scraped_products (process_scraped_products db ps θ now₁).1
        ps θ now₂).1.products.map eraseVolatile
      = (process_scraped_products db ps θ now₁).1.products.map
          eraseVolatile ∧
    (process_scraped_products (process_scraped_products db ps θ now₁).1
        ps θ now₂).1.next_id
      = (process_scraped_products db ps θ now₁).1.next_id ∧
    ∃ L, (process_scraped_products (process_scraped_products db ps θ now₁).1
        ps θ now₂).1.price_logs
      = (process_scraped_products db ps θ now₁).1.price_logs ++ L ∧
      L.map (fun e => e.price) = ps.map (fun p => p.price) ∧
      ∀ e ∈ L, e.scraped_at = now₂ := by
  by_cases hps : ps.isEmpty
  · have hnil : ps = [] := List.isEmpty_iff.mp hps
    subst hnil
    exact ⟨rfl, rfl, [], (List.append_nil _).symm, rfl, by simp⟩
  · have hred : ∀ (d : Db) (n : Int), process_scraped_products d ps θ n
        = ps.foldl (fun st p =>
            let r := processOneProduct θ n st.1 p
            (r.1, st.2 ++ r.2.toList)) (deactivate_all_products d, []) := by
      intro d n
      rw [process_scraped_products, if_neg hps]
    obtain ⟨h1p, h1n, ⟨L₁, h1l, h1lm, h1lt⟩, h1e, h1wf⟩ :=
      foldl_reconcile_char θ now₁ ps (deactivate_all_products db) []
        (Wf_deactivate db hwf) hnd _ (hred db now₁)
    have hurls₁ : ∀ q ∈ ps, q.source_url ∈
        (process_scraped_products db ps θ now₁).1.products.map
          (fun r => r.source_url) := by
      intro q hq
      rw [h1p, List.map_append]
      by_cases hq2 : q.source_url ∈
          (deactivate_all_products db).products.map (fun r => r.source_url)
      · apply List.mem_append_left
        rw [map_url_map _ _ (fun r => updRow_url ps now₁ r)]
        exact hq2
      · apply List.mem_append_right
        exact newRows_mem_urls now₁ ps _ _ _
          (List.mem_map_of_mem (fun p => p.source_url) hq) hq2
    obtain ⟨h2p, h2n, ⟨L₂, h2l, h2lm, h2lt⟩, h2e, h2wf⟩ :=
      foldl_reconcile_char θ now₂ ps
        (deactivate_all_products (process_scraped_products db ps θ now₁).1) []
        (Wf_deactivate _ h1wf) hnd _ (hred _ now₂)
    have hnew2 : newRows
        ((deactivate_all_products
          (process_scraped_products db ps θ now₁).1).products.map
            (fun r => r.source_url))
        (deactivate_all_products
          (process_scraped_products db ps θ now₁).1).next_id now₂ ps
        = [] := by
      apply newRows_nil_of_all_mem
      intro q hq
      rw [deact_urls]
      exact hurls₁ q hq
    refine ⟨?_, ?_, L₂, ?_, h2lm, h2lt⟩
    · rw [h2p, hnew2, List.append_nil]
      rw [show (deactivate_all_products
            (process_scraped_products db ps θ now₁).1).products
          = (process_scraped_products db ps θ now₁).1.products.map deactRow
          from rfl]
      rw [List.map_map, List.map_map]
      apply mapCongrMem
      intro r hr
      rw [h1p] at hr
      rcases List.mem_append.mp hr with hr | hr
      · obtain ⟨r₀, hr₀, rfl⟩ := List.mem_map.mp hr
        obtain ⟨r₁, hr₁, rfl⟩ := List.mem_map.mp hr₀
        exact erase_pass2_fix ps now₁ now₂ r₁
      · obtain ⟨q, hq, i, rfl, _⟩ := newRows_mem now₁ ps _ _ _ hr
        exact erase_pass2_new ps q i now₁ now₂
          (find?_eq_of_mem_nodup ps q hnd hq)
    · rw [h2n, hnew2]
      rfl
    · rw [h2l]
      rfl

/-- C5 (witness): a concrete wellformed database and nodup batch at which
the amended idempotence theorem applies. -/
theorem C5_witness :
    Db.Wf ⟨[], [], [], 1⟩ ∧
    (([(⟨"X", 10, some 5, "u", none, "c"⟩ : ProductData)].map
        (fun p => p.source_url)).Nodup) ∧
    ((process_scraped_products (process_scraped_products ⟨[], [], [], 1⟩
        [⟨"X", 10, some 5, "u", none, "c"⟩] 14 100).1
        [⟨"X", 10, some 5, "u", none, "c"⟩] 14 200).1.products.map
          eraseVolatile
      = (process_scraped_products ⟨[], [], [], 1⟩
          [⟨"X", 10, some 5, "u", none, "c"⟩] 14 100).1.products.map
            eraseVolatile ∧
    (process_scraped_products (process_scraped_products ⟨[], [], [], 1⟩
        [⟨"X", 10, some 5, "u", none, "c"⟩] 14 100).1
        [⟨"X", 10, some 5, "u", none, "c"⟩] 14 200).1.next_id
      = (process_scraped_products ⟨[], [], [], 1⟩
          [⟨"X", 10, some 5, "u", none, "c"⟩] 14 100).1.next_id ∧
    ∃ L, (process_scraped_products (process_scraped_products ⟨[], [], [], 1⟩
        [⟨"X", 10, some 5, "u", none, "c"⟩] 14 100).1
        [⟨"X", 10, some 5, "u", none, "c"⟩] 14 200).1.price_logs
      = (process_scraped_products ⟨[], [], [], 1⟩
          [⟨"X", 10, some 5, "u", none, "c"⟩] 14 100).1.price_logs ++ L ∧
      L.map (fun e => e.price)
        = [(⟨"X", 10, some 5, "u", none, "c"⟩ : ProductData)].map
            (fun p => p.price) ∧
      ∀ e ∈ L, e.scraped_at = 200) :=
  ⟨⟨fun r hr => absurd hr (List.not_mem_nil r), List.nodup_nil,
      List.nodup_nil, Nat.one_ne_zero⟩,
   List.nodup_singleton _,
   C5_reconcile_idempotent ⟨[], [], [], 1⟩
     [⟨"X", 10, some 5, "u", none, "c"⟩] 14 100 200
     ⟨fun r hr => absurd hr (List.not_mem_nil r), List.nodup_nil,
       List.nodup_nil, Nat.one_ne_zero⟩
     (List.nodup_singleton _)⟩

end AutoDropshipper
